import Mathlib

/-!
Verification development for the Zahner-Analysis-Python binary file
decoder/encoder layer.

The Python sources are shallowly embedded as follows:

* byte streams are `List Nat` (each entry a byte value `< 256`); a reader
  returns a pair `(Option value, rest)` where `rest` is the stream after the
  bytes the Python call consumed (also on failure, mirroring the position of
  a Python file object when an exception is raised);
* big-endian IEEE-754 f8 fields are kept as their raw 64-bit patterns
  (a `Nat`); the code never does arithmetic on them except ordering, which
  is recovered exactly (for non-NaN patterns) through the order-preserving
  key `f8key`;
* Python strings read from files are `List Nat` of character codes;
* fallible code returns `Option`.
-/

namespace ZahnerAnalysis

/-! ## Frequency-range normalizer (ism_import.py lines 137-149, 384-403)

`np.argmin` / `np.argmax` return the index of the first occurrence of the
minimum / maximum value; they are modelled by structural recursion with
exactly that semantics, generically over any linearly ordered value type
(instantiated at `Int` for executable witnesses and at `ℝ` for the
idealized-float pipeline of claim C2). -/

/-- Model of `np.argmin`: index of the first occurrence of the minimum
value of the list (`0` on the empty list, where NumPy raises instead). -/
def npArgmin {α : Type} [LinearOrder α] : List α → Nat
  | [] => 0
  | a :: t =>
    let j := npArgmin t
    if t.getD j a < a then j + 1 else 0

/-- Model of `np.argmax`: index of the first occurrence of the maximum
value of the list (`0` on the empty list, where NumPy raises instead). -/
def npArgmax {α : Type} [LinearOrder α] : List α → Nat
  | [] => 0
  | a :: t =>
    let j := npArgmax t
    if a < t.getD j a then j + 1 else 0

/-- `IsmImport.__init__` lines 140-147: `fromIndex` is `minFrequencyIndex`,
replaced by `maxFrequencyIndex` when the min index exceeds the max index. -/
def fromIndex {α : Type} [LinearOrder α] (l : List α) : Nat :=
  if npArgmax l < npArgmin l then npArgmax l else npArgmin l

/-- `IsmImport.__init__` lines 140-149: `toIndex` is the larger of the two
extreme indices, plus one (line 149 `self.toIndex += 1`). -/
def toIndex {α : Type} [LinearOrder α] (l : List α) : Nat :=
  (if npArgmax l < npArgmin l then npArgmin l else npArgmax l) + 1

/-- `IsmImport.__init__` lines 140-147: the swap flag is set exactly when
`minFrequencyIndex > maxFrequencyIndex`. -/
def swapNecessary {α : Type} [LinearOrder α] (l : List α) : Bool :=
  npArgmax l < npArgmin l

/-- `IsmImport._arraySlice` (lines 384-403), with the slice indices passed
explicitly (in the source they are taken from `self`, computed from the
frequency array): Python `array[fromIndex:toIndex]` is
`(array.drop fromIdx).take (toIdx - fromIdx)`, and `np.flip` is `reverse`. -/
def arraySliceIdx {β : Type} (fromIdx toIdx : Nat) (swap : Bool)
    (array : List β) (includeDoubleFrequencies : Bool) : List β :=
  let retval := if includeDoubleFrequencies then array
                else (array.drop fromIdx).take (toIdx - fromIdx)
  if swap then retval.reverse else retval

/-- `IsmImport._arraySlice` applied to an arbitrary data track, with the
slice indices derived from the frequency list `freq`. -/
def arraySlice {α β : Type} [LinearOrder α] (freq : List α) (array : List β)
    (includeDoubleFrequencies : Bool) : List β :=
  arraySliceIdx (fromIndex freq) (toIndex freq) (swapNecessary freq)
    array includeDoubleFrequencies

/-- `IsmImport.getFrequencyArray` (lines 162-169): `_arraySlice` applied to
the frequency array itself. -/
def getFrequencyArray {α : Type} [LinearOrder α] (l : List α)
    (includeDoubleFrequencies : Bool) : List α :=
  arraySlice l l includeDoubleFrequencies

theorem npArgmin_lt_length {α : Type} [LinearOrder α] (l : List α)
    (h : l ≠ []) : npArgmin l < l.length := by
  induction l with
  | nil => exact absurd rfl h
  | cons a t ih =>
    show (if t.getD (npArgmin t) a < a then npArgmin t + 1 else 0) < (a :: t).length
    by_cases hc : t.getD (npArgmin t) a < a
    · rw [if_pos hc]
      have ht : t ≠ [] := by
        intro he
        subst he
        simp [npArgmin] at hc
      have := ih ht
      simp only [List.length_cons]
      omega
    · rw [if_neg hc]
      simp

theorem npArgmax_lt_length {α : Type} [LinearOrder α] (l : List α)
    (h : l ≠ []) : npArgmax l < l.length := by
  induction l with
  | nil => exact absurd rfl h
  | cons a t ih =>
    show (if a < t.getD (npArgmax t) a then npArgmax t + 1 else 0) < (a :: t).length
    by_cases hc : a < t.getD (npArgmax t) a
    · rw [if_pos hc]
      have ht : t ≠ [] := by
        intro he
        subst he
        simp [npArgmax] at hc
      have := ih ht
      simp only [List.length_cons]
      omega
    · rw [if_neg hc]
      simp

/-- Claim C1: for every decoded spectrum record (whose raw frequency array
is the nonempty list `l` of sample count `N = l.length`), the derived
indices satisfy `0 ≤ fromIndex ≤ toIndex ≤ N`, and `swapNecessary` is true
exactly when the index of the first minimum of the raw frequency array
exceeds the index of the first maximum. -/
theorem claim_C1_norm_invariants {α : Type} [LinearOrder α] (l : List α)
    (h : l ≠ []) :
    0 ≤ fromIndex l ∧ fromIndex l ≤ toIndex l ∧ toIndex l ≤ l.length ∧
      (swapNecessary l = true ↔ npArgmax l < npArgmin l) := by
  refine ⟨Nat.zero_le _, ?_, ?_, ?_⟩
  · unfold fromIndex toIndex
    by_cases hc : npArgmax l < npArgmin l
    · simp only [hc, if_true]
      omega
    · simp only [hc, if_false]
      omega
  · unfold toIndex
    have hmin := npArgmin_lt_length l h
    have hmax := npArgmax_lt_length l h
    by_cases hc : npArgmax l < npArgmin l
    · simp only [hc, if_true]
      omega
    · simp only [hc, if_false]
      omega
  · simp [swapNecessary]

/-- Witness for C1 at the concrete frequency array `[3, 1, 2]`. -/
theorem claim_C1_witness :
    0 ≤ fromIndex ([3, 1, 2] : List Int) ∧
      fromIndex ([3, 1, 2] : List Int) ≤ toIndex ([3, 1, 2] : List Int) ∧
      toIndex ([3, 1, 2] : List Int) ≤ ([3, 1, 2] : List Int).length ∧
      (swapNecessary ([3, 1, 2] : List Int) = true ↔
        npArgmax ([3, 1, 2] : List Int) < npArgmin ([3, 1, 2] : List Int)) :=
  claim_C1_norm_invariants ([3, 1, 2] : List Int) (by decide)

/-- Counterexample to claim C3: the raw frequency array `[5, 3, 4, 1]` has
its (first) minimum at index 3 and its (first) maximum at index 0, so
`swapNecessary` is true, yet `getFrequencyArray` with the default flag
returns `[1, 4, 3, 5]`, which is not strictly increasing. -/
theorem claim_C3_counterexample :
    swapNecessary ([5, 3, 4, 1] : List Int) = true ∧
      ¬ List.Chain' (· < ·) (getFrequencyArray ([5, 3, 4, 1] : List Int) false) := by
  refine ⟨rfl, ?_⟩
  intro hch
  have h2 : getFrequencyArray ([5, 3, 4, 1] : List Int) false = [1, 4, 3, 5] := rfl
  rw [h2] at hch
  norm_num [List.chain'_cons] at hch

/-- Claim C3 as amended: with the default flag, `getFrequencyArray` returns
the reverse of the raw sub-array from `fromIndex` to `toIndex` when
`swapNecessary` is true (strictly increasing only when that raw sub-array is
strictly decreasing), and the raw sub-array in original order when
`swapNecessary` is false. -/
theorem claim_C3_slice_amended {α : Type} [LinearOrder α] (l : List α) :
    (swapNecessary l = true →
      getFrequencyArray l false =
        ((l.drop (fromIndex l)).take (toIndex l - fromIndex l)).reverse ∧
      (List.Chain' (· > ·) ((l.drop (fromIndex l)).take (toIndex l - fromIndex l)) →
        List.Chain' (· < ·) (getFrequencyArray l false))) ∧
    (swapNecessary l = false →
      getFrequencyArray l false =
        (l.drop (fromIndex l)).take (toIndex l - fromIndex l)) := by
  constructor
  · intro hs
    constructor
    · simp [getFrequencyArray, arraySlice, arraySliceIdx, hs]
    · intro hchain
      have he : getFrequencyArray l false =
          ((l.drop (fromIndex l)).take (toIndex l - fromIndex l)).reverse := by
        simp [getFrequencyArray, arraySlice, arraySliceIdx, hs]
      rw [he, List.chain'_reverse]
      exact hchain
  · intro hs
    simp [getFrequencyArray, arraySlice, arraySliceIdx, hs]

/-! ## Primitive binary reader/writer (thales_file_utils.py)

A reader takes the byte stream (`List Nat`) and returns
`(Option value, rest)`; `rest` is the stream after the bytes consumed by
the corresponding Python call, also when the value is `none` (an exception
is raised after the underlying `file.read` has advanced the position). -/

/-- Unsigned big-endian value of a byte list. -/
def beNat (bs : List Nat) : Nat :=
  bs.foldl (fun acc b => acc * 256 + b) 0

/-- `int.from_bytes(bs, "big", signed=True)`: two's-complement value of
however many bytes are present (`0` for the empty byte string). -/
def sbeInt (bs : List Nat) : Int :=
  let u := beNat bs
  if u < 2 ^ (8 * bs.length - 1) then (u : Int) else (u : Int) - 2 ^ (8 * bs.length)

/-- `v.to_bytes(width, "big")` for a nonnegative value that fits: fixed
width big-endian bytes. -/
def natToBytesBE : Nat → Nat → List Nat
  | 0, _ => []
  | w + 1, v => natToBytesBE w (v / 256) ++ [v % 256]

/-- `readF8FromFile` (lines 50-53): `file.read(8)` followed by
`struct.unpack(">d", ...)`, which raises unless exactly 8 bytes came back.
The value is kept as the raw 64-bit big-endian pattern. -/
def readF8FromFile (s : List Nat) : Option Nat × List Nat :=
  if 8 ≤ s.length then (some (beNat (s.take 8)), s.drop 8) else (none, s.drop 8)

/-- Split a stream into `n` consecutive 8-byte big-endian patterns. -/
def f8Chunks : Nat → List Nat → List Nat
  | 0, _ => []
  | n + 1, s => beNat (s.take 8) :: f8Chunks n (s.drop 8)

/-- `readF8ArrayFromFile` (lines 56-59): `np.ndarray` over
`file.read(8 * length)` raises when the buffer is smaller than the shape
requires, and a negative length is an invalid shape (`file.read` of a
negative count consumes the whole stream first). -/
def readF8ArrayFromFile (length : Int) (s : List Nat) :
    Option (List Nat) × List Nat :=
  if length < 0 then (none, [])
  else
    let n := length.toNat
    if 8 * n ≤ s.length then (some (f8Chunks n s), s.drop (8 * n)) else (none, [])

/-- `readI2FromFile` (lines 62-63): `int.from_bytes(file.read(2), "big",
signed=True)`. `file.read(2)` returns up to 2 bytes and `int.from_bytes`
accepts any length, so this read never fails. -/
def readI2FromFile (s : List Nat) : Option Int × List Nat :=
  (some (sbeInt (s.take 2)), s.drop 2)

/-- `readI6FromFile` (lines 76-77): like `readI2FromFile` with 6 bytes;
also never fails. -/
def readI6FromFile (s : List Nat) : Option Int × List Nat :=
  (some (sbeInt (s.take 6)), s.drop 6)

/-- Split a stream into `n` consecutive 2-byte signed big-endian values. -/
def i2Chunks : Nat → List Nat → List Int
  | 0, _ => []
  | n + 1, s => sbeInt (s.take 2) :: i2Chunks n (s.drop 2)

/-- `readI2ArrayFromFile` (lines 70-73): `np.ndarray` with dtype `>i2`
over `file.read(2 * length)`; fails like `readF8ArrayFromFile` when the
buffer is short or the length negative. -/
def readI2ArrayFromFile (length : Int) (s : List Nat) :
    Option (List Int) × List Nat :=
  if length < 0 then (none, [])
  else
    let n := length.toNat
    if 2 * n ≤ s.length then (some (i2Chunks n s), s.drop (2 * n)) else (none, [])

/-- `str.swapcase` on an ASCII character code: the two letter ranges are
exchanged, everything else is fixed. -/
def byteSwapCase (c : Nat) : Nat :=
  if 65 ≤ c ∧ c ≤ 90 then c + 32
  else if 97 ≤ c ∧ c ≤ 122 then c - 32
  else c

/-- `readZahnerStringFromFile` (lines 90-97): a 2-byte signed length, then
that many single-byte reads (`file.read(1)[0]` raises at end of stream),
then `content.decode("ASCII")` (raises on a byte `≥ 128`) and `swapcase`.
A length `≤ 0` makes the `for` loop empty and yields the empty string. -/
def readZahnerStringFromFile (s : List Nat) : Option (List Nat) × List Nat :=
  match readI2FromFile s with
  | (none, s1) => (none, s1)
  | (some len, s1) =>
    if len ≤ 0 then (some [], s1)
    else
      let n := len.toNat
      if n ≤ s1.length then
        let content := s1.take n
        if content.all (· < 128) then (some (content.map byteSwapCase), s1.drop n)
        else (none, s1.drop n)
      else (none, [])

/-- `writeZahnerStringToBytes` (lines 100-111): `swapcase`, then
`encode("ASCII")` (raises on a character `≥ 128`), then the length as
2 big-endian bytes via `to_bytes(2, signed=True)` (raises when the length
exceeds 32767). The model covers ASCII input strings. -/
def writeZahnerStringToBytes (str : List Nat) : Option (List Nat) :=
  let swapped := str.map byteSwapCase
  if swapped.all (· < 128) then
    if str.length ≤ 32767 then some (natToBytesBE 2 str.length ++ swapped)
    else none
  else none

/-- Writing a string with `writeZahnerStringToBytes` and reading the
result back with `readZahnerStringFromFile` (the round trip of claim C4). -/
def zahnerStringRoundTrip (str : List Nat) : Option (List Nat) :=
  match writeZahnerStringToBytes str with
  | none => none
  | some bs => (readZahnerStringFromFile bs).1

theorem byteSwapCase_involutive (c : Nat) :
    byteSwapCase (byteSwapCase c) = c := by
  unfold byteSwapCase
  split_ifs <;> omega

theorem byteSwapCase_lt_128 (c : Nat) (h : c < 128) : byteSwapCase c < 128 := by
  unfold byteSwapCase
  split_ifs <;> omega

theorem natToBytesBE_two (n : Nat) :
    natToBytesBE 2 n = [n / 256 % 256, n % 256] := rfl

theorem sbeInt_natToBytesBE_two (n : Nat) (h : n ≤ 32767) :
    sbeInt (natToBytesBE 2 n) = (n : Int) := by
  rw [natToBytesBE_two]
  unfold sbeInt beNat
  simp only [List.foldl, List.length_cons, List.length_nil]
  rw [if_pos]
  · push_cast
    omega
  · norm_num
    omega

theorem writeZahnerStringToBytes_eq (str : List Nat)
    (hascii : ∀ c ∈ str, c < 128) (hlen : str.length ≤ 32767) :
    writeZahnerStringToBytes str =
      some (natToBytesBE 2 str.length ++ str.map byteSwapCase) := by
  have hswapall : ((str.map byteSwapCase).all fun c => decide (c < 128)) = true := by
    refine List.all_eq_true.mpr ?_
    intro c hc
    rcases List.mem_map.mp hc with ⟨b, hb, rfl⟩
    simpa using byteSwapCase_lt_128 b (hascii b hb)
  simp only [writeZahnerStringToBytes]
  rw [hswapall]
  simp [hlen]

theorem zahnerStringRoundTrip_of_write_none (l : List Nat)
    (hw : writeZahnerStringToBytes l = none) : zahnerStringRoundTrip l = none := by
  unfold zahnerStringRoundTrip
  rw [hw]

theorem writeZahnerStringToBytes_long_none (n : Nat) (h : 32767 < n) :
    writeZahnerStringToBytes (List.replicate n 65) = none := by
  have hall : (((List.replicate n 65).map byteSwapCase).all
      fun c => decide (c < 128)) = true := by
    rw [List.map_replicate]
    refine List.all_eq_true.mpr ?_
    intro c hc
    rw [List.mem_replicate] at hc
    rw [hc.2]
    decide
  simp only [writeZahnerStringToBytes]
  rw [hall]
  rw [if_pos rfl, List.length_replicate, if_neg (by omega)]

/-- Counterexample to claim C4: the ASCII string of 32768 copies of `A`
cannot be encoded at all — `to_bytes(2, byteorder="big", signed=True)`
raises `OverflowError` for a length above 32767 — so the round trip does
not return the string. -/
theorem claim_C4_counterexample :
    zahnerStringRoundTrip (List.replicate 32768 65) = none ∧
      (none : Option (List Nat)) ≠ some (List.replicate 32768 65) :=
  ⟨zahnerStringRoundTrip_of_write_none _
      (writeZahnerStringToBytes_long_none 32768 (by norm_num)),
    fun h => Option.noConfusion h⟩

/-- Claim C4 as amended: for every ASCII string of length at most 32767,
encoding with the length-prefixed case-swapped writer and reading back
returns the string unchanged (the case swap is involutive). -/
theorem claim_C4_roundtrip_amended (str : List Nat)
    (hascii : str.all (· < 128) = true) (hlen : str.length ≤ 32767) :
    zahnerStringRoundTrip str = some str := by
  have hascii' : ∀ c ∈ str, c < 128 := by
    intro c hc
    have := List.all_eq_true.mp hascii c hc
    simpa using this
  have hswapall : ((str.map byteSwapCase).all fun c => decide (c < 128)) = true := by
    refine List.all_eq_true.mpr ?_
    intro c hc
    rcases List.mem_map.mp hc with ⟨b, hb, rfl⟩
    simpa using byteSwapCase_lt_128 b (hascii' b hb)
  have hw := writeZahnerStringToBytes_eq str hascii' hlen
  unfold zahnerStringRoundTrip
  rw [hw]
  show (readZahnerStringFromFile (natToBytesBE 2 str.length ++ str.map byteSwapCase)).1
      = some str
  have hlen2 : (natToBytesBE 2 str.length).length = 2 := rfl
  have htake : (natToBytesBE 2 str.length ++ str.map byteSwapCase).take 2 =
      natToBytesBE 2 str.length := by
    rw [List.take_append_of_le_length (by rw [hlen2]), List.take_of_length_le (by rw [hlen2])]
  have hdrop : (natToBytesBE 2 str.length ++ str.map byteSwapCase).drop 2 =
      str.map byteSwapCase := by
    rw [List.drop_append_of_le_length (by rw [hlen2]), List.drop_of_length_le (by rw [hlen2])]
    simp
  simp only [readZahnerStringFromFile, readI2FromFile, htake, hdrop,
    sbeInt_natToBytesBE_two str.length hlen]
  by_cases h0 : str.length = 0
  · have : str = [] := List.eq_nil_of_length_eq_zero h0
    subst this
    simp
  · rw [if_neg (by omega)]
    have htn : ((str.length : Int)).toNat = str.length := by simp
    rw [htn]
    rw [if_pos (by simp)]
    have htake2 : (str.map byteSwapCase).take str.length = str.map byteSwapCase := by
      simp
    rw [htake2, hswapall]
    simp only [if_true]
    congr 1
    rw [List.map_map]
    have hcomp : ∀ c ∈ str, (byteSwapCase ∘ byteSwapCase) c = id c := by
      intro c _
      simp [byteSwapCase_involutive]
    rw [List.map_congr_left hcomp, List.map_id]

/-- Witness for the amended C4 at the ASCII string `"Ab z"`. -/
theorem claim_C4_witness :
    zahnerStringRoundTrip [65, 98, 32, 122] = some [65, 98, 32, 122] :=
  claim_C4_roundtrip_amended [65, 98, 32, 122] (by decide) (by decide)

/-- Counterexample to claim C5: applied to an empty (or too-short) stream,
`readI2FromFile` and `readI6FromFile` do not fail at all —
`int.from_bytes` happily converts fewer bytes than the field width, so
they silently return values (`0` at end of stream, `-1` for the single
byte `0xFF`). -/
theorem claim_C5_counterexample :
    (readI2FromFile []).1 = some 0 ∧ (readI6FromFile []).1 = some 0 ∧
      (readI2FromFile [255]).1 = some (-1) := by
  refine ⟨rfl, rfl, ?_⟩
  show some (sbeInt [255]) = some (-1)
  unfold sbeInt beNat
  norm_num

/-- Claim C5 as amended: on a stream with fewer than 8 remaining bytes the
f8 read fails (`struct.unpack` needs exactly 8 bytes), but the i2 and i6
scalar reads never fail — they return the signed value of the at most
2 / 6 remaining bytes instead. -/
theorem claim_C5_amended (s : List Nat) (h : s.length < 8) :
    (readF8FromFile s).1 = none ∧
      (readI2FromFile s).1 = some (sbeInt (s.take 2)) ∧
      (readI6FromFile s).1 = some (sbeInt (s.take 6)) := by
  refine ⟨?_, rfl, rfl⟩
  unfold readF8FromFile
  rw [if_neg (by omega)]

/-- Witness for the amended C5 at the 3-byte stream `[1, 2, 3]`. -/
theorem claim_C5_witness :
    (readF8FromFile [1, 2, 3]).1 = none ∧
      (readI2FromFile [1, 2, 3]).1 = some (sbeInt ([1, 2, 3].take 2)) ∧
      (readI6FromFile [1, 2, 3]).1 = some (sbeInt ([1, 2, 3].take 6)) :=
  claim_C5_amended [1, 2, 3] (by decide)

/-! ## Date codec (thales_file_utils.py lines 114-138) -/

/-- Python whitespace characters stripped by `int(...)`. -/
def isPySpace (c : Nat) : Bool :=
  c == 32 || c == 9 || c == 10 || c == 13 || c == 11 || c == 12

/-- Value of a nonempty all-digit character sequence. -/
def pyIntDigits (ds : List Nat) : Option Nat :=
  match ds with
  | [] => none
  | _ =>
    if ds.all (fun c => 48 ≤ c && c ≤ 57) then
      some (ds.foldl (fun a c => a * 10 + (c - 48)) 0)
    else none

/-- Python `int(str)` on a character-code list: strip whitespace, optional
sign, then a nonempty run of decimal digits; anything else raises
`ValueError` (`none`). -/
def pyInt (cs : List Nat) : Option Int :=
  let t := ((cs.dropWhile isPySpace).reverse.dropWhile isPySpace).reverse
  match t with
  | 43 :: ds => (pyIntDigits ds).map (fun n => (n : Int))
  | 45 :: ds => (pyIntDigits ds).map (fun n => -(n : Int))
  | ds => (pyIntDigits ds).map (fun n => (n : Int))

/-- A calendar date as produced by `datetime.datetime(year, month, day)`. -/
structure ZDate where
  year : Int
  month : Int
  day : Int
deriving DecidableEq

/-- Day count of a month, with the Gregorian leap rule, as validated by
`datetime.datetime`. -/
def daysInMonth (y m : Int) : Int :=
  if m = 2 then
    if y % 4 = 0 ∧ (y % 100 ≠ 0 ∨ y % 400 = 0) then 29 else 28
  else if m = 4 ∨ m = 6 ∨ m = 9 ∨ m = 11 then 30 else 31

/-- `datetime.datetime(year, month, day)`: raises `ValueError` (`none`)
outside `MINYEAR..MAXYEAR` or for an invalid month or day. -/
def pyDatetime (y m d : Int) : Option ZDate :=
  if 1 ≤ y ∧ y ≤ 9999 ∧ 1 ≤ m ∧ m ≤ 12 ∧ 1 ≤ d ∧ d ≤ daysInMonth y m then
    some ⟨y, m, d⟩
  else none

/-- `readZahnerDate` (lines 114-138): read a Zahner string, take its first
six characters as `DDMMYY`, convert the three 2-character fields with
`int(...)` and map a two-digit year below 70 to `2000+YY`, otherwise to
`1900+YY`; any exception inside the `try` block falls back to
1970-01-01 **without setting any flag**. The final `datetime.datetime`
call is outside the `try` and can still raise (`none`) on a numerically
parsed but invalid calendar date. -/
def readZahnerDate (s : List Nat) : Option ZDate × List Nat :=
  match readZahnerStringFromFile s with
  | (none, rest) => (none, rest)
  | (some dateString, rest) =>
    let date := dateString.take 6
    let parsed : Option (Int × Int × Int) :=
      match pyInt (date.take 2), pyInt ((date.drop 2).take 2),
          pyInt ((date.drop 4).take 2) with
      | some d, some m, some y =>
        some (d, m, if y < 70 then y + 2000 else y + 1900)
      | _, _, _ => none
    match parsed with
    | some (d, m, y) => (pyDatetime y m d, rest)
    | none => (pyDatetime 1970 1 1, rest)

/-! ## Spectrum (.ism) decoder (ism_import.py)

f8 samples stay raw 64-bit patterns. `np.argmin` / `np.argmax` compare the
float *values*; for non-NaN doubles the IEEE order is recovered exactly by
the sign-magnitude key `f8key` (for positive patterns the order coincides
with the pattern order; `-0.0` and `+0.0` compare equal). Buffers with NaN
frequencies are outside the modelled domain. -/

/-- Order-preserving key from a 64-bit IEEE-754 pattern to `Int`
(total, value-compatible on non-NaN patterns). -/
def f8key (p : Nat) : Int :=
  if p < 2 ^ 63 then (p : Int) else (2 ^ 63 : Int) - (p : Int)

/-- Python `int(x)` for a float given by its 64-bit pattern: truncation
toward zero; `none` for NaN and infinities, where `int()` raises. -/
def f8truncInt (p : Nat) : Option Int :=
  let sign : Int := if p < 2 ^ 63 then 1 else -1
  let expField := p / 2 ^ 52 % 2 ^ 11
  let mantissa := p % 2 ^ 52
  if expField = 2047 then none
  else
    let mag : Nat :=
      if expField = 0 then 0
      else if expField < 1075 then (2 ^ 52 + mantissa) / 2 ^ (1075 - expField)
      else (2 ^ 52 + mantissa) * 2 ^ (expField - 1075)
    some (sign * mag)

/-- Python `(k & 32768) == 32768` on an arbitrary-precision signed int:
bit 15 of the two's-complement representation. -/
def intTestBit15 (k : Int) : Bool :=
  32768 ≤ k.emod 65536

/-- The metadata / ACQ block of `IsmImport.__init__` (lines 87-127): the
fields assigned inside the `try`, with the class-level defaults (lines
49-63) for fields not yet assigned when an exception occurs.
`measurementDate` has no default (the attribute stays unset), hence
`Option`. `amplitude` is `kValues[25] / 1000.0`, a float division; the
raw operand pattern is kept in `amplitudeK`. -/
structure IsmMeta where
  measurementDate : Option ZDate := none
  system : List Nat := []
  voltage : List Nat := []
  current : List Nat := []
  temperature : List Nat := []
  timeWindow : List Nat := []
  comment_1 : List Nat := []
  comment_2 : List Nat := []
  comment_3 : List Nat := []
  comment_4 : List Nat := []
  electrodeArea : List Nat := []
  amplitudeK : Option Nat := none
  kValues : List Nat := []
  acqChannels : List (String × List Nat) := []
  metaDataAcqParsingErrorOccurred : Bool := false
deriving DecidableEq

/-- The interleaved ACQ loop of lines 120-122: `numberOfSamples` pairs of
f8 reads (`Voltage/V` then `Current/A`), each of which can fail. -/
def readInterleavedPairs : Nat → List Nat → Option (List Nat × List Nat) × List Nat
  | 0, s => (some ([], []), s)
  | n + 1, s =>
    match readF8FromFile s with
    | (none, s1) => (none, s1)
    | (some v, s1) =>
      match readF8FromFile s1 with
      | (none, s2) => (none, s2)
      | (some c, s2) =>
        match readInterleavedPairs n s2 with
        | (none, s3) => (none, s3)
        | (some (vs, cs), s3) => (some (v :: vs, c :: cs), s3)

/-- Failure exit of the metadata `try` block (lines 123-127): keep the
fields assigned so far, set `metaDataAcqParsingErrorOccurred`, and leave
the stream at the position the failing read stopped at. On a failure
inside the interleaved ACQ loop the Python dict already holds the two
uninitialized `np.ndarray` buffers (indeterminate contents); the model
leaves `acqChannels` empty there. -/
def ismMetaFail (m : IsmMeta) (rest : List Nat) : IsmMeta × List Nat :=
  ({ m with metaDataAcqParsingErrorOccurred := true }, rest)

/-- The metadata block of `IsmImport.__init__` (lines 87-127): date, the
eleven Zahner strings (the twelfth-read `serialQuantityStuff` is consumed
and discarded), the 2-byte acquisition flag, the 32 k-values, and — when
`acquisition_flag > 256` and bit 15 of `int(kValues[27])` is set — the two
interleaved N-length ACQ tracks. Any exception flags the record instead of
propagating. -/
def ismMetaBlock (numberOfSamples : Int) (s : List Nat) : IsmMeta × List Nat :=
  match readZahnerDate s with
  | (none, rest) => ismMetaFail {} rest
  | (some date, s1) =>
  let m1 : IsmMeta := { measurementDate := some date }
  match readZahnerStringFromFile s1 with
  | (none, rest) => ismMetaFail m1 rest
  | (some system, s2) =>
  let m2 := { m1 with system := system }
  match readZahnerStringFromFile s2 with
  | (none, rest) => ismMetaFail m2 rest
  | (some voltage, s3) =>
  let m3 := { m2 with voltage := voltage }
  match readZahnerStringFromFile s3 with
  | (none, rest) => ismMetaFail m3 rest
  | (some current, s4) =>
  let m4 := { m3 with current := current }
  match readZahnerStringFromFile s4 with
  | (none, rest) => ismMetaFail m4 rest
  | (some temperature, s5) =>
  let m5 := { m4 with temperature := temperature }
  match readZahnerStringFromFile s5 with
  | (none, rest) => ismMetaFail m5 rest
  | (some timeWindow, s6) =>
  let m6 := { m5 with timeWindow := timeWindow }
  match readZahnerStringFromFile s6 with
  | (none, rest) => ismMetaFail m6 rest
  | (some comment_1, s7) =>
  let m7 := { m6 with comment_1 := comment_1 }
  match readZahnerStringFromFile s7 with
  | (none, rest) => ismMetaFail m7 rest
  | (some comment_2, s8) =>
  let m8 := { m7 with comment_2 := comment_2 }
  match readZahnerStringFromFile s8 with
  | (none, rest) => ismMetaFail m8 rest
  | (some comment_3, s9) =>
  let m9 := { m8 with comment_3 := comment_3 }
  match readZahnerStringFromFile s9 with
  | (none, rest) => ismMetaFail m9 rest
  | (some comment_4, s10) =>
  let m10 := { m9 with comment_4 := comment_4 }
  match readZahnerStringFromFile s10 with
  | (none, rest) => ismMetaFail m10 rest
  | (some electrodeArea, s11) =>
  let m11 := { m10 with electrodeArea := electrodeArea }
  match readZahnerStringFromFile s11 with
  | (none, rest) => ismMetaFail m11 rest
  | (some _serialQuantityStuff, s12) =>
  match readI2FromFile s12 with
  | (none, rest) => ismMetaFail m11 rest
  | (some acquisitionFlag, s13) =>
  match readF8ArrayFromFile 32 s13 with
  | (none, rest) => ismMetaFail m11 rest
  | (some kValues, s14) =>
  let m12 := { m11 with amplitudeK := some (kValues.getD 25 0), kValues := kValues }
  match f8truncInt (kValues.getD 27 0) with
  | none => ismMetaFail m12 s14
  | some k27 =>
    if 256 < acquisitionFlag ∧ intTestBit15 k27 = true then
      match readInterleavedPairs numberOfSamples.toNat s14 with
      | (none, rest) => ismMetaFail m12 rest
      | (some (volts, currents), s15) =>
        ({ m12 with acqChannels := [("Voltage/V", volts), ("Current/A", currents)] }, s15)
    else (m12, s14)

/-- A decoded `IsmImport` object. The filename / original byte content
bookkeeping of the constructor is the identity on the input and is not
repeated here; `measurementTimeStamp` keeps the raw f8 patterns (the
`datetime` conversion is per-element and total for the finite timestamps
occurring in practice). -/
structure IsmRec where
  numberOfSamples : Int
  frequency : List Nat
  impedance : List Nat
  phase : List Nat
  measurementTimeStamp : List Nat
  significance : List Int
  meta : IsmMeta
  metaData : List Nat
  minFrequencyIndex : Nat
  maxFrequencyIndex : Nat
  fromIndex : Nat
  toIndex : Nat
  swapNecessary : Bool
deriving DecidableEq

/-- `IsmImport.__init__` (lines 77-150): version (informational), sample
count (i6 + 1), the five primary arrays, the flagged metadata block, the
trailing opaque metadata, and the frequency-range normalization (which
raises on an empty frequency array, so a record with `N = 0` fails to
decode). -/
def ismDecode (buf : List Nat) : Option IsmRec :=
  match readI6FromFile buf with
  | (none, _) => none
  | (some _version, s1) =>
  match readI6FromFile s1 with
  | (none, _) => none
  | (some countRead, s2) =>
  let numberOfSamples : Int := countRead + 1
  match readF8ArrayFromFile numberOfSamples s2 with
  | (none, _) => none
  | (some frequency, s3) =>
  match readF8ArrayFromFile numberOfSamples s3 with
  | (none, _) => none
  | (some impedance, s4) =>
  match readF8ArrayFromFile numberOfSamples s4 with
  | (none, _) => none
  | (some phase, s5) =>
  match readF8ArrayFromFile numberOfSamples s5 with
  | (none, _) => none
  | (some timeStamps, s6) =>
  match readI2ArrayFromFile numberOfSamples s6 with
  | (none, _) => none
  | (some significance, s7) =>
  let (meta, s8) := ismMetaBlock numberOfSamples s7
  if frequency.isEmpty then none
  else
    let keyed := frequency.map f8key
    let minFrequencyIndex := npArgmin keyed
    let maxFrequencyIndex := npArgmax keyed
    let swap := maxFrequencyIndex < minFrequencyIndex
    some
      { numberOfSamples := numberOfSamples
        frequency := frequency
        impedance := impedance
        phase := phase
        measurementTimeStamp := timeStamps
        significance := significance
        meta := meta
        metaData := s8
        minFrequencyIndex := minFrequencyIndex
        maxFrequencyIndex := maxFrequencyIndex
        fromIndex := if swap then maxFrequencyIndex else minFrequencyIndex
        toIndex := (if swap then minFrequencyIndex else maxFrequencyIndex) + 1
        swapNecessary := swap }

/-- A complete one-sample .ism buffer whose date string is `"bad!!x"`
(stored case-swapped as `"BAD!!X"`): version, count `0` (one sample), the
five primary fields, the malformed date, eleven empty strings, a zero
acquisition flag and 32 zero k-values. -/
def ismBufBadDate : List Nat :=
  List.replicate 6 0
  ++ List.replicate 6 0
  ++ List.replicate 8 0
  ++ List.replicate 8 0
  ++ List.replicate 8 0
  ++ List.replicate 8 0
  ++ List.replicate 2 0
  ++ [0, 6, 66, 65, 68, 33, 33, 88]
  ++ List.replicate 22 0
  ++ List.replicate 2 0
  ++ List.replicate 256 0

/-- Counterexample to claim C6: decoding a spectrum buffer whose date
string `"bad!!x"` fails to parse yields the fallback date 1970-01-01 and
the record decodes, but **no** "date parsing failed" flag is set — the
fallback happens inside `readZahnerDate` itself and the record-level
`metaDataAcqParsingErrorOccurred` stays `False`. -/
theorem claim_C6_counterexample :
    (ismDecode ismBufBadDate).map
        (fun r => (r.meta.measurementDate, r.meta.metaDataAcqParsingErrorOccurred))
      = some (some ⟨1970, 1, 1⟩, false) := by
  set_option maxRecDepth 10000 in decide

/-- Claim C6 as amended: the date decoder maps `"010170"` to 1970-01-01
and `"010100"` to 2000-01-01 (two-digit year `< 70` becomes `2000+YY`,
otherwise `1900+YY`); a string that fails to parse as three 2-digit fields
yields the fallback 1970-01-01 without failing the record — but no error
flag is set anywhere for the date fallback (the record's metadata flag
reacts only to exceptions that escape the date decoder). -/
theorem claim_C6_amended :
    (readZahnerDate ([0, 6] ++ [48, 49, 48, 49, 55, 48])).1 = some ⟨1970, 1, 1⟩ ∧
      (readZahnerDate ([0, 6] ++ [48, 49, 48, 49, 48, 48])).1 = some ⟨2000, 1, 1⟩ ∧
      (readZahnerDate [0, 6, 66, 65, 68, 33, 33, 88]).1 = some ⟨1970, 1, 1⟩ ∧
      (ismDecode ismBufBadDate).map (fun r => r.meta.metaDataAcqParsingErrorOccurred)
        = some false := by
  set_option maxRecDepth 10000 in
  exact ⟨by decide, by decide, by decide, by decide⟩

/-! ## Spectrum (.ism) encoder (ism_export.py) -/

/-- The fixed 6-byte magic header (line 76). -/
def ismExportStartOfFile : List Nat := [0, 0, 255, 255, 255, 254]

/-- `v.to_bytes(6, "big")` on a signed int: raises (`none`) for a negative
value — which happens for `numberOfElements - 1` when the minimum array
length is 0 — or for a value of 48 bits or more. -/
def intToBytes6 (v : Int) : Option (List Nat) :=
  if 0 ≤ v ∧ v < 2 ^ 48 then some (natToBytesBE 6 v.toNat) else none

/-- `numpy` conversion of a nonnegative integer to a float64, as the raw
64-bit pattern: exact below `2^53`, round-half-even above, infinity on
exponent overflow. Used for the synthesized sample-index time array. -/
def natToF8 (i : Nat) : Nat :=
  if i = 0 then 0
  else
    let k := Nat.log2 i
    if k ≤ 52 then (1023 + k) * 2 ^ 52 + (i - 2 ^ k) * 2 ^ (52 - k)
    else if 1024 ≤ k then 2047 * 2 ^ 52
    else
      let shift := k - 52
      let q := i / 2 ^ shift
      let r := i % 2 ^ shift
      let half := 2 ^ (shift - 1)
      let q2 := if half < r ∨ (r = half ∧ q % 2 = 1) then q + 1 else q
      if q2 = 2 ^ 53 then (1024 + k) * 2 ^ 52
      else (1023 + k) * 2 ^ 52 + (q2 - 2 ^ 52)

/-- `.tobytes()` of a `>f8` array of raw patterns. -/
def f8ArrayToBytes (l : List Nat) : List Nat :=
  (l.map (natToBytesBE 8)).flatten

/-- Sequence of `writeZahnerStringToBytes` calls; any failure propagates. -/
def writeZahnerStrings : List (List Nat) → Option (List Nat)
  | [] => some []
  | s :: rest =>
    match writeZahnerStringToBytes s, writeZahnerStrings rest with
    | some b, some bs => some (b ++ bs)
    | _, _ => none

/-- `IsmExport.__init__` (lines 58-124) constructed from explicit
frequency / impedance / phase pattern arrays: `numberOfElements` is the
minimum of the three lengths; the count field is `numberOfElements - 1`;
the three input arrays are serialized via `np.array(..., dtype=">f8")`
**in full length** (lines 90-92 convert the whole lists), while the
synthesized time (sample indices) and significance (constant 1000) arrays
have length `numberOfElements`; then a 2-byte empty date, the ten
length-prefixed case-swapped strings, a 2-byte empty
`serialQuantityStuff`, and the opaque metadata passthrough. -/
def ismExportBytes (frequency impedance phase : List Nat)
    (system_string potential_string current_string temperature_string
      time_string comment_1_string comment_2_string comment_3_string
      comment_4_string areaForCurrentDensity_string : List Nat)
    (metaData : List Nat) : Option (List Nat) :=
  let numberOfElements := min frequency.length (min impedance.length phase.length)
  let time := (List.range numberOfElements).map natToF8
  match intToBytes6 ((numberOfElements : Int) - 1) with
  | none => none
  | some countBytes =>
    match writeZahnerStrings
        [system_string, potential_string, current_string, temperature_string,
          time_string, comment_1_string, comment_2_string, comment_3_string,
          comment_4_string, areaForCurrentDensity_string] with
    | none => none
    | some stringsBytes =>
      some (ismExportStartOfFile ++ countBytes
        ++ f8ArrayToBytes frequency ++ f8ArrayToBytes impedance
        ++ f8ArrayToBytes phase ++ f8ArrayToBytes time
        ++ (List.replicate numberOfElements (natToBytesBE 2 1000)).flatten
        ++ [0, 0] ++ stringsBytes ++ [0, 0] ++ metaData)

/-- The byte layout asserted by claim C10, written out following the
claim's words (for comparison with `ismExportBytes`): only the minimum
number of samples of each input array serialized, count field
`minimum - 1`, empty strings and no metadata. -/
def ismExportClaimLayout (frequency impedance phase : List Nat) : List Nat :=
  let m := min frequency.length (min impedance.length phase.length)
  ismExportStartOfFile ++ natToBytesBE 6 (m - 1)
    ++ f8ArrayToBytes (frequency.take m) ++ f8ArrayToBytes (impedance.take m)
    ++ f8ArrayToBytes (phase.take m)
    ++ f8ArrayToBytes ((List.range m).map natToF8)
    ++ (List.replicate m (natToBytesBE 2 1000)).flatten
    ++ [0, 0] ++ List.replicate 20 0 ++ [0, 0]

/-- Counterexample to claim C10: with pattern arrays `[1, 2]`, `[3]`,
`[4]` (unequal lengths, minimum 1) the constructor succeeds but does
**not** produce the claimed min-trimmed serialization — the full 2-sample
frequency array is written, shifting every later field — and with
`[] [5] [5]` (minimum 0) construction fails outright, because
`(-1).to_bytes(6, "big")` raises. -/
theorem claim_C10_counterexample :
    (ismExportBytes [1, 2] [3] [4] [] [] [] [] [] [] [] [] [] [] []).isSome = true ∧
      ismExportBytes [1, 2] [3] [4] [] [] [] [] [] [] [] [] [] [] []
        ≠ some (ismExportClaimLayout [1, 2] [3] [4]) ∧
      ismExportBytes [] [5] [5] [] [] [] [] [] [] [] [] [] [] [] = none := by
  refine ⟨by decide, by decide, by decide⟩

/-- Claim C10 as amended: when the minimum `m` of the three array lengths
is at least one (and representable in 6 bytes), construction succeeds, the
6-byte count field after the magic header equals `m - 1`, and the three
input arrays are serialized **in full** (not trimmed to `m`); only the
synthesized time and significance arrays have length `m`. With minimum 0
construction fails. -/
theorem claim_C10_amended (frequency impedance phase : List Nat)
    (s1 s2 s3 s4 s5 s6 s7 s8 s9 s10 : List Nat) (metaData : List Nat)
    (m : Nat) (hm : m = min frequency.length (min impedance.length phase.length))
    (h1 : 1 ≤ m) (h48 : m ≤ 2 ^ 48) (strBytes : List Nat)
    (hs : writeZahnerStrings [s1, s2, s3, s4, s5, s6, s7, s8, s9, s10]
      = some strBytes) :
    ismExportBytes frequency impedance phase s1 s2 s3 s4 s5 s6 s7 s8 s9 s10 metaData
      = some (ismExportStartOfFile ++ natToBytesBE 6 (m - 1)
        ++ f8ArrayToBytes frequency ++ f8ArrayToBytes impedance
        ++ f8ArrayToBytes phase
        ++ f8ArrayToBytes ((List.range m).map natToF8)
        ++ (List.replicate m (natToBytesBE 2 1000)).flatten
        ++ [0, 0] ++ strBytes ++ [0, 0] ++ metaData) := by
  have hcount : intToBytes6 ((m : Int) - 1) = some (natToBytesBE 6 (m - 1)) := by
    unfold intToBytes6
    rw [if_pos (by constructor <;> omega)]
    congr 1
    congr 1
    omega
  simp only [ismExportBytes, ← hm, hcount, hs]

/-- Witness for the amended C10 at arrays `[1, 2]`, `[3]`, `[4]`, empty
strings and empty metadata. -/
theorem claim_C10_witness :
    ismExportBytes [1, 2] [3] [4] [] [] [] [] [] [] [] [] [] [] []
      = some (ismExportStartOfFile ++ natToBytesBE 6 (1 - 1)
        ++ f8ArrayToBytes [1, 2] ++ f8ArrayToBytes [3]
        ++ f8ArrayToBytes [4]
        ++ f8ArrayToBytes ((List.range 1).map natToF8)
        ++ (List.replicate 1 (natToBytesBE 2 1000)).flatten
        ++ [0, 0] ++ List.replicate 20 0 ++ [0, 0] ++ []) :=
  claim_C10_amended [1, 2] [3] [4] [] [] [] [] [] [] [] [] [] [] []
    1 (by decide) (by decide) (by decide) (List.replicate 20 0) (by decide)

/-! ## Decode / encode / decode pipeline at the value level (claim C2)

For claim C2 the f8 samples are read as exact real values (the byte layer
transports the 64-bit patterns unchanged, so the only transformations the
pipeline applies to the numbers are the ones below). A decoded spectrum is
its three raw arrays; the getters re-run the §4.4 normalizer, and the
encoder constructed from a decoded record (ism_export.py lines 79-83)
takes the trimmed frequency getter and rebuilds impedance and phase
through the complex representation. -/

/-- The three raw sample arrays of a decoded spectrum, idealized over `ℝ`. -/
structure IsmValRec where
  frequency : List ℝ
  impedance : List ℝ
  phase : List ℝ

/-- `IsmImport.getFrequencyArray()` with the default flag. -/
noncomputable def IsmValRec.getFrequencyArray (r : IsmValRec) : List ℝ :=
  arraySlice r.frequency r.frequency false

/-- `IsmImport.getImpedanceArray()` with the default flag. -/
noncomputable def IsmValRec.getImpedanceArray (r : IsmValRec) : List ℝ :=
  arraySlice r.frequency r.impedance false

/-- `IsmImport.getPhaseArray()` with the default flag. -/
noncomputable def IsmValRec.getPhaseArray (r : IsmValRec) : List ℝ :=
  arraySlice r.frequency r.phase false

/-- `IsmImport.getComplexImpedanceArray` (lines 196-207):
`np.cos(phase) * imp + 1j * np.sin(phase) * imp` over the two getters. -/
noncomputable def IsmValRec.getComplexImpedanceArray (r : IsmValRec) : List ℂ :=
  List.zipWith
    (fun z φ => ((Real.cos φ * z : ℝ) + (Real.sin φ * z : ℝ) * Complex.I : ℂ))
    r.getImpedanceArray r.getPhaseArray

/-- `IsmExport.__init__` lines 79-83 applied to a decoded record: the
encoder's frequency input is the trimmed getter, and its impedance / phase
inputs are `np.abs` / `np.angle` of the complex impedance getter. Decoding
the encoded buffer again yields exactly these three arrays as the raw
arrays of the second record (the byte layer is the identity on the
samples). -/
noncomputable def ismExportFromIsm (r : IsmValRec) : IsmValRec :=
  { frequency := r.getFrequencyArray
    impedance := r.getComplexImpedanceArray.map Complex.abs
    phase := r.getComplexImpedanceArray.map Complex.arg }

theorem npArgmin_getD_le {α : Type} [LinearOrder α] (l : List α) :
    ∀ (d : α), ∀ x ∈ l, l.getD (npArgmin l) d ≤ x := by
  induction l with
  | nil =>
    intro d x hx
    exact absurd hx (List.not_mem_nil x)
  | cons a t ih =>
    intro d x hx
    by_cases hc : t.getD (npArgmin t) a < a
    · have ht : t ≠ [] := by
        intro he
        subst he
        simp [npArgmin] at hc
      have hj := npArgmin_lt_length t ht
      have hunf : npArgmin (a :: t) = npArgmin t + 1 := by
        show (if t.getD (npArgmin t) a < a then npArgmin t + 1 else 0) = _
        rw [if_pos hc]
      rw [hunf]
      have hgd : (a :: t).getD (npArgmin t + 1) d = t.getD (npArgmin t) d := rfl
      rw [hgd]
      have hdd : t.getD (npArgmin t) d = t.getD (npArgmin t) a := by
        rw [List.getD_eq_getElem t d hj, List.getD_eq_getElem t a hj]
      rcases List.mem_cons.mp hx with rfl | hxt
      · rw [hdd]
        exact le_of_lt hc
      · exact ih d x hxt
    · have hunf : npArgmin (a :: t) = 0 := by
        show (if t.getD (npArgmin t) a < a then npArgmin t + 1 else 0) = _
        rw [if_neg hc]
      rw [hunf]
      show a ≤ x
      rcases List.mem_cons.mp hx with rfl | hxt
      · exact le_refl x
      · exact le_trans (not_lt.mp hc) (ih a x hxt)

theorem npArgmax_getD_ge {α : Type} [LinearOrder α] (l : List α) :
    ∀ (d : α), ∀ x ∈ l, x ≤ l.getD (npArgmax l) d := by
  induction l with
  | nil =>
    intro d x hx
    exact absurd hx (List.not_mem_nil x)
  | cons a t ih =>
    intro d x hx
    by_cases hc : a < t.getD (npArgmax t) a
    · have ht : t ≠ [] := by
        intro he
        subst he
        simp [npArgmax] at hc
      have hj := npArgmax_lt_length t ht
      have hunf : npArgmax (a :: t) = npArgmax t + 1 := by
        show (if a < t.getD (npArgmax t) a then npArgmax t + 1 else 0) = _
        rw [if_pos hc]
      rw [hunf]
      have hgd : (a :: t).getD (npArgmax t + 1) d = t.getD (npArgmax t) d := rfl
      rw [hgd]
      have hdd : t.getD (npArgmax t) d = t.getD (npArgmax t) a := by
        rw [List.getD_eq_getElem t d hj, List.getD_eq_getElem t a hj]
      rcases List.mem_cons.mp hx with rfl | hxt
      · rw [hdd]
        exact le_of_lt hc
      · exact ih d x hxt
    · have hunf : npArgmax (a :: t) = 0 := by
        show (if a < t.getD (npArgmax t) a then npArgmax t + 1 else 0) = _
        rw [if_neg hc]
      rw [hunf]
      show x ≤ a
      rcases List.mem_cons.mp hx with rfl | hxt
      · exact le_refl x
      · exact le_trans (ih a x hxt) (not_lt.mp hc)

theorem npArgmin_eq_zero_of_head_le {α : Type} [LinearOrder α] (a : α)
    (t : List α) (h : ∀ x ∈ t, a ≤ x) : npArgmin (a :: t) = 0 := by
  have hnot : ¬ t.getD (npArgmin t) a < a := by
    rcases eq_or_ne t [] with rfl | ht
    · simp [npArgmin]
    · have hj := npArgmin_lt_length t ht
      have hmem : t.getD (npArgmin t) a ∈ t := by
        rw [List.getD_eq_getElem t a hj]
        exact List.getElem_mem hj
      exact not_lt.mpr (h _ hmem)
  show (if t.getD (npArgmin t) a < a then npArgmin t + 1 else 0) = 0
  rw [if_neg hnot]

theorem npArgmax_eq_last {α : Type} [LinearOrder α] (l : List α)
    (hne : l ≠ []) (d : α)
    (h : ∀ i, i + 1 < l.length → l.getD i d < l.getD (l.length - 1) d) :
    npArgmax l = l.length - 1 := by
  have hlt := npArgmax_lt_length l hne
  by_contra hne2
  have h2 : npArgmax l + 1 < l.length := by omega
  have h3 := h (npArgmax l) h2
  have hlast : l.length - 1 < l.length := by omega
  have hmem : l.getD (l.length - 1) d ∈ l := by
    rw [List.getD_eq_getElem l d hlast]
    exact List.getElem_mem hlast
  exact absurd h3 (not_lt.mpr (npArgmax_getD_ge l d _ hmem))

theorem fromIndex_lt_toIndex {α : Type} [LinearOrder α] (l : List α) :
    fromIndex l < toIndex l := by
  unfold fromIndex toIndex
  split_ifs <;> omega

theorem arraySliceIdx_noswap {β : Type} (f t : Nat) (x : List β) :
    arraySliceIdx f t false x false = (x.drop f).take (t - f) := rfl

theorem arraySliceIdx_swap {β : Type} (f t : Nat) (x : List β) :
    arraySliceIdx f t true x false = ((x.drop f).take (t - f)).reverse := rfl

theorem arraySliceIdx_noswap_all {β : Type} (f t : Nat) (x : List β) :
    arraySliceIdx f t false x true = x := rfl

theorem arraySliceIdx_swap_all {β : Type} (f t : Nat) (x : List β) :
    arraySliceIdx f t true x true = x.reverse := rfl

theorem arraySlice_eq {α β : Type} [LinearOrder α] (freq : List α)
    (x : List β) (flag : Bool) :
    arraySlice freq x flag
      = arraySliceIdx (fromIndex freq) (toIndex freq) (swapNecessary freq) x flag :=
  rfl

theorem getFrequencyArray_eq {α : Type} [LinearOrder α] (l : List α)
    (flag : Bool) : getFrequencyArray l flag = arraySlice l l flag := rfl

theorem swapNecessary_eq_true_iff {α : Type} [LinearOrder α] (l : List α) :
    swapNecessary l = true ↔ npArgmax l < npArgmin l := by
  simp [swapNecessary]

theorem swapNecessary_eq_false_iff {α : Type} [LinearOrder α] (l : List α) :
    swapNecessary l = false ↔ ¬ npArgmax l < npArgmin l := by
  simp [swapNecessary]

theorem fromIndex_of_swap {α : Type} [LinearOrder α] {l : List α}
    (hsw : npArgmax l < npArgmin l) : fromIndex l = npArgmax l := by
  unfold fromIndex
  rw [if_pos hsw]

theorem toIndex_of_swap {α : Type} [LinearOrder α] {l : List α}
    (hsw : npArgmax l < npArgmin l) : toIndex l = npArgmin l + 1 := by
  unfold toIndex
  rw [if_pos hsw]

theorem fromIndex_of_noswap {α : Type} [LinearOrder α] {l : List α}
    (hsw : ¬ npArgmax l < npArgmin l) : fromIndex l = npArgmin l := by
  unfold fromIndex
  rw [if_neg hsw]

theorem toIndex_of_noswap {α : Type} [LinearOrder α] {l : List α}
    (hsw : ¬ npArgmax l < npArgmin l) : toIndex l = npArgmax l + 1 := by
  unfold toIndex
  rw [if_neg hsw]

theorem arraySlice_length {α β : Type} [LinearOrder α] (freq : List α)
    (x : List β) (h : freq ≠ []) (hx : x.length = freq.length) :
    (arraySlice freq x false).length = toIndex freq - fromIndex freq := by
  have hto : toIndex freq ≤ freq.length :=
    (claim_C1_norm_invariants freq h).2.2.1
  cases hsw : swapNecessary freq with
  | true =>
    rw [arraySlice_eq, hsw, arraySliceIdx_swap, List.length_reverse,
      List.length_take, List.length_drop, hx]
    omega
  | false =>
    rw [arraySlice_eq, hsw, arraySliceIdx_noswap, List.length_take,
      List.length_drop, hx]
    omega

theorem mem_of_mem_arraySlice {α β : Type} [LinearOrder α] {freq : List α}
    {x : List β} {flag : Bool} {y : β}
    (hy : y ∈ arraySlice freq x flag) : y ∈ x := by
  rw [arraySlice_eq] at hy
  cases hsw : swapNecessary freq with
  | true =>
    rw [hsw] at hy
    cases hf : flag with
    | true =>
      rw [hf, arraySliceIdx_swap_all, List.mem_reverse] at hy
      exact hy
    | false =>
      rw [hf, arraySliceIdx_swap, List.mem_reverse] at hy
      exact List.mem_of_mem_drop (List.mem_of_mem_take hy)
  | false =>
    rw [hsw] at hy
    cases hf : flag with
    | true =>
      rw [hf, arraySliceIdx_noswap_all] at hy
      exact hy
    | false =>
      rw [hf, arraySliceIdx_noswap] at hy
      exact List.mem_of_mem_drop (List.mem_of_mem_take hy)

theorem getFrequencyArray_head {α : Type} [LinearOrder α] (l : List α)
    (h : l ≠ []) :
    (getFrequencyArray l false)[0]? = l[npArgmin l]? := by
  have hmi := npArgmin_lt_length l h
  have hma := npArgmax_lt_length l h
  rw [getFrequencyArray_eq, arraySlice_eq]
  cases hswb : swapNecessary l with
  | true =>
    have hsw := (swapNecessary_eq_true_iff l).mp hswb
    rw [arraySliceIdx_swap, fromIndex_of_swap hsw, toIndex_of_swap hsw]
    have hslen : ((l.drop (npArgmax l)).take (npArgmin l + 1 - npArgmax l)).length
        = npArgmin l + 1 - npArgmax l := by
      rw [List.length_take, List.length_drop]
      omega
    rw [List.getElem?_reverse (by omega), hslen]
    have hidx : npArgmin l + 1 - npArgmax l - 1 - 0 = npArgmin l - npArgmax l := by
      omega
    rw [hidx, List.getElem?_take, if_pos (by omega), List.getElem?_drop]
    congr 1
    omega
  | false =>
    have hsw := (swapNecessary_eq_false_iff l).mp hswb
    rw [arraySliceIdx_noswap, fromIndex_of_noswap hsw, toIndex_of_noswap hsw]
    rw [List.getElem?_take, if_pos (by omega), List.getElem?_drop]
    simp

theorem norm_of_min_head_max_last {α : Type} [LinearOrder α] (A : List α)
    (hne : A ≠ []) (d : α)
    (hmin : ∀ x ∈ A, A.getD 0 d ≤ x)
    (hmax : ∀ i, i + 1 < A.length → A.getD i d < A.getD (A.length - 1) d) :
    fromIndex A = 0 ∧ toIndex A = A.length ∧ swapNecessary A = false := by
  have hminz : npArgmin A = 0 := by
    rcases A with _ | ⟨a, t⟩
    · exact absurd rfl hne
    · refine npArgmin_eq_zero_of_head_le a t ?_
      intro x hx
      exact hmin x (List.mem_cons_of_mem a hx)
  have hmaxl : npArgmax A = A.length - 1 := npArgmax_eq_last A hne d hmax
  have hlen : 0 < A.length := List.length_pos.mpr hne
  have hnoswap : ¬ npArgmax A < npArgmin A := by omega
  refine ⟨?_, ?_, ?_⟩
  · rw [fromIndex_of_noswap hnoswap, hminz]
  · rw [toIndex_of_noswap hnoswap, hmaxl]
    omega
  · exact (swapNecessary_eq_false_iff A).mpr hnoswap

theorem arraySlice_full {α β : Type} [LinearOrder α] (A : List α) (x : List β)
    (hfrom : fromIndex A = 0) (hto : toIndex A = A.length)
    (hsw : swapNecessary A = false) (hx : x.length ≤ A.length) :
    arraySlice A x false = x := by
  rw [arraySlice_eq, hsw, arraySliceIdx_noswap, hfrom, hto]
  simp [List.take_of_length_le, hx]

theorem IsmValRec.getFrequencyArray_def (r : IsmValRec) :
    r.getFrequencyArray = arraySlice r.frequency r.frequency false := rfl

theorem IsmValRec.getImpedanceArray_def (r : IsmValRec) :
    r.getImpedanceArray = arraySlice r.frequency r.impedance false := rfl

theorem IsmValRec.getPhaseArray_def (r : IsmValRec) :
    r.getPhaseArray = arraySlice r.frequency r.phase false := rfl

theorem abs_arg_point (z φ : ℝ) (hz : 0 < z)
    (hφ : -Real.pi < φ ∧ φ ≤ Real.pi) :
    Complex.abs ((Real.cos φ * z : ℝ) + (Real.sin φ * z : ℝ) * Complex.I) = z ∧
      Complex.arg ((Real.cos φ * z : ℝ) + (Real.sin φ * z : ℝ) * Complex.I) = φ := by
  have hrw : ((Real.cos φ * z : ℝ) + (Real.sin φ * z : ℝ) * Complex.I : ℂ)
      = (z : ℂ) * (Complex.cos φ + Complex.sin φ * Complex.I) := by
    rw [← Complex.ofReal_cos, ← Complex.ofReal_sin]
    push_cast
    ring
  constructor
  · rw [hrw, map_mul, Complex.abs_ofReal, Complex.abs_cos_add_sin_mul_I,
      mul_one, abs_of_pos hz]
  · rw [hrw, Complex.arg_mul_cos_add_sin_mul_I hz (Set.mem_Ioc.mpr ⟨hφ.1, hφ.2⟩)]

theorem zipWith_abs_arg (Z Phi : List ℝ) (hlen : Z.length = Phi.length)
    (hz : ∀ z ∈ Z, 0 < z)
    (hphi : ∀ φ ∈ Phi, -Real.pi < φ ∧ φ ≤ Real.pi) :
    (List.zipWith
        (fun z φ => ((Real.cos φ * z : ℝ) + (Real.sin φ * z : ℝ) * Complex.I : ℂ))
        Z Phi).map Complex.abs = Z ∧
      (List.zipWith
        (fun z φ => ((Real.cos φ * z : ℝ) + (Real.sin φ * z : ℝ) * Complex.I : ℂ))
        Z Phi).map Complex.arg = Phi := by
  induction Z generalizing Phi with
  | nil =>
    cases Phi with
    | nil => exact ⟨rfl, rfl⟩
    | cons φ Phi' => simp at hlen
  | cons z Z' ih =>
    cases Phi with
    | nil => simp at hlen
    | cons φ Phi' =>
      have hlen' : Z'.length = Phi'.length := by
        simpa using hlen
      have hz' : ∀ x ∈ Z', 0 < x := fun x hx => hz x (List.mem_cons_of_mem z hx)
      have hphi' : ∀ x ∈ Phi', -Real.pi < x ∧ x ≤ Real.pi :=
        fun x hx => hphi x (List.mem_cons_of_mem φ hx)
      obtain ⟨ih1, ih2⟩ := ih Phi' hlen' hz' hphi'
      have hpt := abs_arg_point z φ (hz z (List.mem_cons_self z Z'))
        (hphi φ (List.mem_cons_self φ Phi'))
      constructor
      · simp only [List.zipWith_cons_cons, List.map_cons, ih1, hpt.1]
      · simp only [List.zipWith_cons_cons, List.map_cons, ih2, hpt.2]

/-- Claim C2 as amended: re-decoding the encoded record reproduces the
three getter arrays provided the trimmed frequency getter attains its
maximum only at its last position (otherwise the second decode trims the
array further), every impedance sample is positive (`np.abs` folds signs),
and every phase lies in `(-π, π]` (`np.angle` wraps); the amplitude of the
frequency identity failure is exactly the further trimming, and impedance
and phase survive the polar round trip under these conditions. -/
theorem claim_C2_roundtrip_amended (r : IsmValRec)
    (hlz : r.impedance.length = r.frequency.length)
    (hlp : r.phase.length = r.frequency.length)
    (hne : r.frequency ≠ [])
    (hmax : ∀ i, i + 1 < r.getFrequencyArray.length →
      r.getFrequencyArray.getD i 0
        < r.getFrequencyArray.getD (r.getFrequencyArray.length - 1) 0)
    (hz : ∀ z ∈ r.getImpedanceArray, 0 < z)
    (hphi : ∀ φ ∈ r.getPhaseArray, -Real.pi < φ ∧ φ ≤ Real.pi) :
    (ismExportFromIsm r).getFrequencyArray = r.getFrequencyArray ∧
      (ismExportFromIsm r).getImpedanceArray = r.getImpedanceArray ∧
      (ismExportFromIsm r).getPhaseArray = r.getPhaseArray := by
  have hAlen : r.getFrequencyArray.length
      = toIndex r.frequency - fromIndex r.frequency := by
    rw [IsmValRec.getFrequencyArray_def]
    exact arraySlice_length r.frequency r.frequency hne rfl
  have hfrlt := fromIndex_lt_toIndex r.frequency
  have hAne : r.getFrequencyArray ≠ [] := by
    intro he
    have : r.getFrequencyArray.length = 0 := by rw [he]; rfl
    omega
  have hmin : ∀ x ∈ r.getFrequencyArray, r.getFrequencyArray.getD 0 0 ≤ x := by
    intro x hx
    have hx_l : x ∈ r.frequency := by
      rw [IsmValRec.getFrequencyArray_def] at hx
      exact mem_of_mem_arraySlice hx
    have hhead := getFrequencyArray_head r.frequency hne
    have hD : r.getFrequencyArray.getD 0 0 = r.frequency.getD (npArgmin r.frequency) 0 := by
      rw [List.getD_eq_getElem?_getD, List.getD_eq_getElem?_getD]
      have : r.getFrequencyArray[0]? = (getFrequencyArray r.frequency false)[0]? := rfl
      rw [this, hhead]
    rw [hD]
    exact npArgmin_getD_le r.frequency 0 x hx_l
  obtain ⟨hfrom0, htoA, hswA⟩ :=
    norm_of_min_head_max_last r.getFrequencyArray hAne 0 hmin hmax
  have hZlen : r.getImpedanceArray.length = r.getFrequencyArray.length := by
    rw [IsmValRec.getImpedanceArray_def,
      arraySlice_length r.frequency r.impedance hne hlz, hAlen]
  have hPlen : r.getPhaseArray.length = r.getFrequencyArray.length := by
    rw [IsmValRec.getPhaseArray_def,
      arraySlice_length r.frequency r.phase hne hlp, hAlen]
  obtain ⟨habs, harg⟩ := zipWith_abs_arg r.getImpedanceArray r.getPhaseArray
    (by rw [hZlen, hPlen]) hz hphi
  have hziplen : (List.zipWith
      (fun z φ => ((Real.cos φ * z : ℝ) + (Real.sin φ * z : ℝ) * Complex.I : ℂ))
      r.getImpedanceArray r.getPhaseArray).length = r.getFrequencyArray.length := by
    rw [List.length_zipWith, hZlen, hPlen, min_self]
  refine ⟨?_, ?_, ?_⟩
  · show arraySlice r.getFrequencyArray r.getFrequencyArray false = r.getFrequencyArray
    exact arraySlice_full _ _ hfrom0 htoA hswA (le_refl _)
  · show arraySlice r.getFrequencyArray
        ((r.getComplexImpedanceArray).map Complex.abs) false = r.getImpedanceArray
    rw [arraySlice_full _ _ hfrom0 htoA hswA
      (by rw [List.length_map]; rw [show r.getComplexImpedanceArray.length = _ from hziplen])]
    exact habs
  · show arraySlice r.getFrequencyArray
        ((r.getComplexImpedanceArray).map Complex.arg) false = r.getPhaseArray
    rw [arraySlice_full _ _ hfrom0 htoA hswA
      (by rw [List.length_map]; rw [show r.getComplexImpedanceArray.length = _ from hziplen])]
    exact harg

theorem c2FirstStageFreq :
    IsmValRec.getFrequencyArray ⟨[9, 9, 1], [2, 2, 2], [0, 0, 0]⟩ = [1, 9, 9] := by
  have h1 : npArgmin ([9, 9, 1] : List ℝ) = 2 := by norm_num [npArgmin]
  have h2 : npArgmax ([9, 9, 1] : List ℝ) = 0 := by norm_num [npArgmax]
  have hlt : npArgmax ([9, 9, 1] : List ℝ) < npArgmin ([9, 9, 1] : List ℝ) := by
    rw [h1, h2]
    norm_num
  rw [IsmValRec.getFrequencyArray_def, arraySlice_eq,
    (swapNecessary_eq_true_iff _).mpr hlt, arraySliceIdx_swap,
    fromIndex_of_swap hlt, toIndex_of_swap hlt, h1, h2]
  simp

/-- Counterexample to claim C2: a valid spectrum buffer with raw frequency
array `[9, 9, 1]` (duplicated maximum) decodes to the trimmed getter
`[1, 9, 9]`; encoding that record and decoding again re-runs the
normalizer, which now trims the duplicated maximum away and returns
`[1, 9]` — the frequency arrays of the two decodes differ. -/
theorem claim_C2_counterexample :
    (ismExportFromIsm ⟨[9, 9, 1], [2, 2, 2], [0, 0, 0]⟩).getFrequencyArray
      ≠ IsmValRec.getFrequencyArray ⟨[9, 9, 1], [2, 2, 2], [0, 0, 0]⟩ := by
  have h1 : npArgmin ([1, 9, 9] : List ℝ) = 0 := by norm_num [npArgmin]
  have h2 : npArgmax ([1, 9, 9] : List ℝ) = 1 := by norm_num [npArgmax]
  have hnlt : ¬ npArgmax ([1, 9, 9] : List ℝ) < npArgmin ([1, 9, 9] : List ℝ) := by
    rw [h1, h2]
    norm_num
  have hsecond : (ismExportFromIsm ⟨[9, 9, 1], [2, 2, 2], [0, 0, 0]⟩).getFrequencyArray
      = [1, 9] := by
    rw [IsmValRec.getFrequencyArray_def]
    show arraySlice (IsmValRec.getFrequencyArray ⟨[9, 9, 1], [2, 2, 2], [0, 0, 0]⟩)
      (IsmValRec.getFrequencyArray ⟨[9, 9, 1], [2, 2, 2], [0, 0, 0]⟩) false = [1, 9]
    rw [c2FirstStageFreq, arraySlice_eq, (swapNecessary_eq_false_iff _).mpr hnlt,
      arraySliceIdx_noswap, fromIndex_of_noswap hnlt, toIndex_of_noswap hnlt, h1, h2]
    simp
  rw [hsecond, c2FirstStageFreq]
  simp

theorem c2WitnessIndices :
    npArgmin ([1, 2] : List ℝ) = 0 ∧ npArgmax ([1, 2] : List ℝ) = 1 := by
  constructor
  · norm_num [npArgmin]
  · norm_num [npArgmax]

theorem c2WitnessFreq :
    IsmValRec.getFrequencyArray ⟨[1, 2], [5, 5], [0, 0]⟩ = [1, 2] := by
  have hnlt : ¬ npArgmax ([1, 2] : List ℝ) < npArgmin ([1, 2] : List ℝ) := by
    rw [c2WitnessIndices.1, c2WitnessIndices.2]
    norm_num
  rw [IsmValRec.getFrequencyArray_def, arraySlice_eq,
    (swapNecessary_eq_false_iff _).mpr hnlt, arraySliceIdx_noswap,
    fromIndex_of_noswap hnlt, toIndex_of_noswap hnlt,
    c2WitnessIndices.1, c2WitnessIndices.2]
  simp

theorem c2WitnessImp :
    IsmValRec.getImpedanceArray ⟨[1, 2], [5, 5], [0, 0]⟩ = [5, 5] := by
  have hnlt : ¬ npArgmax ([1, 2] : List ℝ) < npArgmin ([1, 2] : List ℝ) := by
    rw [c2WitnessIndices.1, c2WitnessIndices.2]
    norm_num
  rw [IsmValRec.getImpedanceArray_def, arraySlice_eq,
    (swapNecessary_eq_false_iff _).mpr hnlt, arraySliceIdx_noswap,
    fromIndex_of_noswap hnlt, toIndex_of_noswap hnlt,
    c2WitnessIndices.1, c2WitnessIndices.2]
  simp

theorem c2WitnessPhase :
    IsmValRec.getPhaseArray ⟨[1, 2], [5, 5], [0, 0]⟩ = [0, 0] := by
  have hnlt : ¬ npArgmax ([1, 2] : List ℝ) < npArgmin ([1, 2] : List ℝ) := by
    rw [c2WitnessIndices.1, c2WitnessIndices.2]
    norm_num
  rw [IsmValRec.getPhaseArray_def, arraySlice_eq,
    (swapNecessary_eq_false_iff _).mpr hnlt, arraySliceIdx_noswap,
    fromIndex_of_noswap hnlt, toIndex_of_noswap hnlt,
    c2WitnessIndices.1, c2WitnessIndices.2]
  simp

/-- Witness for the amended C2 at the record with frequency `[1, 2]`,
impedance `[5, 5]` and phase `[0, 0]`. -/
theorem claim_C2_witness :
    (ismExportFromIsm ⟨[1, 2], [5, 5], [0, 0]⟩).getFrequencyArray
        = IsmValRec.getFrequencyArray ⟨[1, 2], [5, 5], [0, 0]⟩ ∧
      (ismExportFromIsm ⟨[1, 2], [5, 5], [0, 0]⟩).getImpedanceArray
        = IsmValRec.getImpedanceArray ⟨[1, 2], [5, 5], [0, 0]⟩ ∧
      (ismExportFromIsm ⟨[1, 2], [5, 5], [0, 0]⟩).getPhaseArray
        = IsmValRec.getPhaseArray ⟨[1, 2], [5, 5], [0, 0]⟩ :=
  claim_C2_roundtrip_amended ⟨[1, 2], [5, 5], [0, 0]⟩ rfl rfl (by simp)
    (by
      intro i hi
      rw [c2WitnessFreq] at hi ⊢
      have h0 : i = 0 := by
        simp only [List.length_cons, List.length_nil] at hi
        omega
      subst h0
      norm_num [List.getD])
    (by
      intro z hz
      rw [c2WitnessImp] at hz
      rcases List.mem_cons.mp hz with rfl | hz2
      · norm_num
      · rcases List.mem_cons.mp hz2 with rfl | hz3
        · norm_num
        · exact absurd hz3 (List.not_mem_nil z))
    (by
      intro φ hφ
      have hval : φ = 0 := by
        rw [c2WitnessPhase] at hφ
        rcases List.mem_cons.mp hφ with rfl | hφ2
        · rfl
        · rcases List.mem_cons.mp hφ2 with rfl | hφ3
          · rfl
          · exact absurd hφ3 (List.not_mem_nil φ)
      rw [hval]
      constructor
      · simpa using Real.pi_pos
      · exact le_of_lt Real.pi_pos)

/-! ## CV / polarization decoders (isc_import.py, iss_import.py)

The free-text POPF annotation is parsed with `re.search` on two concrete
patterns. A small backtracking matcher over an element list (literal
character classes and lazy/greedy stars with optional capture) models
exactly those patterns; a `^`-anchored pattern makes `re.search` a
match-at-position-0, and `$` is modelled as end-of-string. -/

/-- One element of the modelled regular expressions. -/
inductive ReEl where
  | anchorEnd : ReEl
  | chr (p : Nat → Bool) : ReEl
  | star (greedy : Bool) (p : Nat → Bool) (capture : Bool) : ReEl

/-- Number of leading characters satisfying `p`. -/
def leadCount (p : Nat → Bool) : List Nat → Nat
  | [] => 0
  | c :: rest => if p c then leadCount p rest + 1 else 0

/-- Backtracking matcher: `fuel` bounds the element-list depth (one unit
per element, so `els.length` suffices); a star tries all candidate
consumption counts, longest first when greedy, shortest first when lazy.
Returns the captured group substrings on success. -/
def reMatch : Nat → List ReEl → List Nat → Option (List (List Nat))
  | _, [], _ => some []
  | 0, _ :: _, _ => none
  | fuel + 1, ReEl.anchorEnd :: els, s =>
    if s.isEmpty then reMatch fuel els s else none
  | fuel + 1, ReEl.chr p :: els, s =>
    match s with
    | [] => none
    | c :: rest => if p c then reMatch fuel els rest else none
  | fuel + 1, ReEl.star greedy p cap :: els, s =>
    let m := leadCount p s
    let ks := if greedy then (List.range (m + 1)).reverse else List.range (m + 1)
    ks.findSome? (fun k =>
      match reMatch fuel els (s.drop k) with
      | some caps => some (if cap then s.take k :: caps else caps)
      | none => none)

/-- `re.search` for a `^`-anchored pattern: match at position 0. -/
def reSearch (els : List ReEl) (s : List Nat) : Option (List (List Nat)) :=
  reMatch els.length els s

/-- Regex `.`: any character except a newline. -/
def reDot (c : Nat) : Bool := c != 10

/-- Regex `\s` (ASCII range). -/
def reWs (c : Nat) : Bool :=
  c == 32 || c == 9 || c == 10 || c == 13 || c == 11 || c == 12

/-- A literal character. -/
def reChar (d : Nat) (c : Nat) : Bool := c == d

/-- isc_import.py line 134, the raw string
`^\s*(.*?),\s*(.*?)\s*PO.PF *(.*?), *(.*)$`. -/
def iscPopfPattern : List ReEl :=
  [ReEl.star true reWs false, ReEl.star false reDot true, ReEl.chr (reChar 44),
    ReEl.star true reWs false, ReEl.star false reDot true,
    ReEl.star true reWs false, ReEl.chr (reChar 80), ReEl.chr (reChar 79),
    ReEl.chr reDot, ReEl.chr (reChar 80), ReEl.chr (reChar 70),
    ReEl.star true (reChar 32) false, ReEl.star false reDot true,
    ReEl.chr (reChar 44), ReEl.star true (reChar 32) false,
    ReEl.star true reDot true, ReEl.anchorEnd]

/-- isc_import.py line 146, the raw string
`^\s*(.*?),\\s*(.*?)\s*PO.PF.*`: in a raw string `\\s*` is the regex
"literal backslash, then zero or more `s`", not whitespace. -/
def iscPopfFallbackPattern : List ReEl :=
  [ReEl.star true reWs false, ReEl.star false reDot true, ReEl.chr (reChar 44),
    ReEl.chr (reChar 92), ReEl.star true (reChar 115) false,
    ReEl.star false reDot true, ReEl.star true reWs false,
    ReEl.chr (reChar 80), ReEl.chr (reChar 79), ReEl.chr reDot,
    ReEl.chr (reChar 80), ReEl.chr (reChar 70), ReEl.star true reDot false]

/-- iss_import.py line 103, the non-raw string
`^\s*(.*?),\s*(.*?)\s*PO.PF.*Ima.*?,(.*?), *(.*)$`. -/
def issPopfPattern : List ReEl :=
  [ReEl.star true reWs false, ReEl.star false reDot true, ReEl.chr (reChar 44),
    ReEl.star true reWs false, ReEl.star false reDot true,
    ReEl.star true reWs false, ReEl.chr (reChar 80), ReEl.chr (reChar 79),
    ReEl.chr reDot, ReEl.chr (reChar 80), ReEl.chr (reChar 70),
    ReEl.star true reDot false, ReEl.chr (reChar 73), ReEl.chr (reChar 109),
    ReEl.chr (reChar 97), ReEl.star false reDot false, ReEl.chr (reChar 44),
    ReEl.star false reDot true, ReEl.chr (reChar 44),
    ReEl.star true (reChar 32) false, ReEl.star true reDot true,
    ReEl.anchorEnd]

/-- iss_import.py line 115, the non-raw string
`^\s*(.*?),\\s*(.*?)\s*PO.PF.*`: here `"\\s"` is the two characters `\s`,
i.e. ordinary regex whitespace. -/
def issPopfFallbackPattern : List ReEl :=
  [ReEl.star true reWs false, ReEl.star false reDot true, ReEl.chr (reChar 44),
    ReEl.star true reWs false, ReEl.star false reDot true,
    ReEl.star true reWs false, ReEl.chr (reChar 80), ReEl.chr (reChar 79),
    ReEl.chr reDot, ReEl.chr (reChar 80), ReEl.chr (reChar 70),
    ReEl.star true reDot false]

/-- Decimal digit. -/
def isDigit (c : Nat) : Bool := 48 ≤ c && c ≤ 57

/-- Leading digit run and the remainder. -/
def splitDigits (cs : List Nat) : List Nat × List Nat :=
  (cs.takeWhile isDigit, cs.dropWhile isDigit)

/-- Value of a digit run. -/
def digitsVal (ds : List Nat) : Nat :=
  ds.foldl (fun a c => a * 10 + (c - 48)) 0

/-- Exponent suffix of a float literal: empty for exponent `0`, or
`e`/`E`, an optional sign, and a nonempty digit run filling the rest. -/
def pyFloatExp (cs : List Nat) : Option Int :=
  match cs with
  | [] => some 0
  | c :: rest =>
    if c == 101 || c == 69 then
      match rest with
      | 43 :: ds => if ds ≠ [] ∧ ds.all isDigit then some (digitsVal ds) else none
      | 45 :: ds => if ds ≠ [] ∧ ds.all isDigit then some (-(digitsVal ds : Int)) else none
      | ds => if ds ≠ [] ∧ ds.all isDigit then some (digitsVal ds) else none
    else none

/-- Unsigned part of a Python float literal: digits, an optional point
with further digits (at least one digit overall), and an optional
exponent. (`inf`, `nan` and underscore separators are not modelled; the
decoders never feed them in the claims' scope.) -/
def pyFloatCore (cs : List Nat) : Option ℚ :=
  let (ip, rest) := splitDigits cs
  match rest with
  | 46 :: rest2 =>
    let (fp, rest3) := splitDigits rest2
    if ip.isEmpty && fp.isEmpty then none
    else
      (pyFloatExp rest3).map (fun e =>
        ((digitsVal ip : ℚ) + (digitsVal fp : ℚ) / (10 : ℚ) ^ fp.length)
          * (10 : ℚ) ^ e)
  | _ =>
    if ip.isEmpty then none
    else (pyFloatExp rest).map (fun e => (digitsVal ip : ℚ) * (10 : ℚ) ^ e)

/-- Python `float(str)` on a character-code list, with exact rational
value (the idealization of the f8 value it produces). -/
def pyFloat (cs : List Nat) : Option ℚ :=
  let t := ((cs.dropWhile isPySpace).reverse.dropWhile isPySpace).reverse
  match t with
  | 43 :: rest => pyFloatCore rest
  | 45 :: rest => (pyFloatCore rest).map Neg.neg
  | rest => pyFloatCore rest

/-- isc_import.py lines 131-153: the POPF annotation parse. A primary
match converts all four groups with `float()` (a conversion failure is an
uncaught `ValueError`, `none`); otherwise the fallback pattern converts
two groups; otherwise `offset = 0`, `factor = 1`. -/
def iscPopfOffsetFactor (popf : List Nat) : Option (ℚ × ℚ) :=
  match reSearch iscPopfPattern popf with
  | some (g1 :: g2 :: g3 :: g4 :: _) =>
    match pyFloat g1, pyFloat g2, pyFloat g3, pyFloat g4 with
    | some o, some f, some _, some _ => some (o, f)
    | _, _, _, _ => none
  | some _ => none
  | none =>
    match reSearch iscPopfFallbackPattern popf with
    | some (g1 :: g2 :: _) =>
      match pyFloat g1, pyFloat g2 with
      | some o, some f => some (o, f)
      | _, _ => none
    | some _ => none
    | none => some (0, 1)

/-- iss_import.py lines 100-121: like the isc variant with the iss
patterns. -/
def issPopfOffsetFactor (popf : List Nat) : Option (ℚ × ℚ) :=
  match reSearch issPopfPattern popf with
  | some (g1 :: g2 :: g3 :: g4 :: _) =>
    match pyFloat g1, pyFloat g2, pyFloat g3, pyFloat g4 with
    | some o, some f, some _, some _ => some (o, f)
    | _, _, _, _ => none
  | some _ => none
  | none =>
    match reSearch issPopfFallbackPattern popf with
    | some (g1 :: g2 :: _) =>
      match pyFloat g1, pyFloat g2 with
      | some o, some f => some (o, f)
      | _, _ => none
    | some _ => none
    | none => some (0, 1)

/-- Python `str.split(sep)` for a single-character separator. -/
def pySplitOn (sep : Nat) : List Nat → List (List Nat)
  | [] => [[]]
  | c :: rest =>
    let parts := pySplitOn sep rest
    if c == sep then [] :: parts
    else
      match parts with
      | [] => [[c]]
      | p :: ps => (c :: p) :: ps

/-- A parsed `datetime.datetime` with time of day. -/
structure ZDateTime where
  date : ZDate
  hour : Int
  minute : Int
  second : Int
deriving DecidableEq

/-- `strptime` `%d`: two digits in 01..31 preferred, else one digit 1..9. -/
def strpDay (s : List Nat) : Option (Nat × List Nat) :=
  match s with
  | a :: b :: rest =>
    if isDigit a ∧ isDigit b then
      let v := (a - 48) * 10 + (b - 48)
      if 1 ≤ v ∧ v ≤ 31 then some (v, rest)
      else if 49 ≤ a ∧ a ≤ 57 then some (a - 48, b :: rest)
      else none
    else if (isDigit a) ∧ 49 ≤ a then some (a - 48, b :: rest)
    else none
  | [a] => if isDigit a ∧ 49 ≤ a then some (a - 48, []) else none
  | [] => none

/-- `strptime` `%m`: two digits in 01..12 preferred, else one digit 1..9. -/
def strpMonth (s : List Nat) : Option (Nat × List Nat) :=
  match s with
  | a :: b :: rest =>
    if isDigit a ∧ isDigit b then
      let v := (a - 48) * 10 + (b - 48)
      if 1 ≤ v ∧ v ≤ 12 then some (v, rest)
      else if 49 ≤ a ∧ a ≤ 57 then some (a - 48, b :: rest)
      else none
    else if (isDigit a) ∧ 49 ≤ a then some (a - 48, b :: rest)
    else none
  | [a] => if isDigit a ∧ 49 ≤ a then some (a - 48, []) else none
  | [] => none

/-- `strptime` `%y`: exactly two digits; 0..68 maps into the 2000s,
69..99 into the 1900s. -/
def strpYear2 (s : List Nat) : Option (Nat × List Nat) :=
  match s with
  | a :: b :: rest =>
    if isDigit a ∧ isDigit b then
      let v := (a - 48) * 10 + (b - 48)
      some (if v ≤ 68 then 2000 + v else 1900 + v, rest)
    else none
  | _ => none

/-- `strptime` `%H`: two digits 00..23 preferred, else one digit 0..9. -/
def strpHour (s : List Nat) : Option (Nat × List Nat) :=
  match s with
  | a :: b :: rest =>
    if isDigit a ∧ isDigit b then
      let v := (a - 48) * 10 + (b - 48)
      if v ≤ 23 then some (v, rest)
      else some (a - 48, b :: rest)
    else if isDigit a then some (a - 48, b :: rest)
    else none
  | [a] => if isDigit a then some (a - 48, []) else none
  | [] => none

/-- `strptime` `%M` / `%S`: two digits 00..59 preferred, else one digit. -/
def strpMinSec (s : List Nat) : Option (Nat × List Nat) :=
  match s with
  | a :: b :: rest =>
    if isDigit a ∧ isDigit b then
      let v := (a - 48) * 10 + (b - 48)
      if v ≤ 59 then some (v, rest)
      else some (a - 48, b :: rest)
    else if isDigit a then some (a - 48, b :: rest)
    else none
  | [a] => if isDigit a then some (a - 48, []) else none
  | [] => none

/-- `datetime.datetime.strptime(s, "%d%m%y%H:%M:%S")`: the six fields
with literal colons, the whole string consumed, and calendar validation
(an invalid combination such as February 30 raises, `none`). Field
matching is greedy per field, without cross-field regex backtracking — the
strings in the claims' scope are either fixed-width well-formed or fail in
their first field either way. -/
def pyStrptimeDdmmyyHMS (s : List Nat) : Option ZDateTime :=
  match strpDay s with
  | none => none
  | some (d, s1) =>
  match strpMonth s1 with
  | none => none
  | some (m, s2) =>
  match strpYear2 s2 with
  | none => none
  | some (y, s3) =>
  match strpHour s3 with
  | none => none
  | some (h, s4) =>
  match s4 with
  | 58 :: s5 =>
    match strpMinSec s5 with
    | none => none
    | some (mi, s6) =>
    match s6 with
    | 58 :: s7 =>
      match strpMinSec s7 with
      | none => none
      | some (sec, s8) =>
        if s8.isEmpty then
          (pyDatetime y m d).map (fun dt => ⟨dt, h, mi, sec⟩)
        else none
    | _ => none
  | _ => none

/-- isc_import.py lines 122-129: `starttime, endtime = Time.split("-")`
(raises unless exactly two parts), then two **uncaught** `strptime` calls;
any failure aborts the whole decode (`none`). -/
def iscTimestamps (dateStr timeStr : List Nat) : Option (ZDateTime × ZDateTime) :=
  match pySplitOn 45 timeStr with
  | [starttime, endtime] =>
    match pyStrptimeDdmmyyHMS (dateStr ++ starttime),
        pyStrptimeDdmmyyHMS (dateStr ++ endtime) with
    | some st, some en => some (st, en)
    | _, _ => none
  | _ => none

/-- iss_import.py lines 86-98: the split is **outside** the `try` (a
non-two-part split aborts the decode), but a `strptime` failure inside the
`try` sets both timestamps to `None` and the decode continues. -/
def issTimestamps (dateStr timeStr : List Nat) :
    Option (Option ZDateTime × Option ZDateTime) :=
  match pySplitOn 45 timeStr with
  | [starttime, endtime] =>
    match pyStrptimeDdmmyyHMS (dateStr ++ starttime),
        pyStrptimeDdmmyyHMS (dateStr ++ endtime) with
    | some st, some en => some (some st, some en)
    | _, _ => some (none, none)
  | _ => none

/-- The ACQ extension state of a CV record (isc_import.py lines 160-218):
the status flag (`None` when no ACQ block is present), the raw channel
numbers (kept across a failure, unlike the other fields), and the names /
units / data of the decoded channels. -/
structure IscAcq where
  acqDecoderSuccess : Option Bool := none
  acqChannelNumbers : Option (List Int) := none
  acqChannelNames : List (List Nat) := []
  acqChannelUnits : List (List Nat) := []
  acqData : List (List Nat × List Nat) := []
deriving DecidableEq

/-- Decimal character codes of a natural number. -/
def natToDecimal (n : Nat) : List Nat :=
  (Nat.toDigits 10 n).map Char.toNat

/-- The collision-suffix loop of isc_import.py lines 176-181: try
`name-1`, `name-2`, … until the name is free. Among `existing.length + 1`
candidates one must be free, so that much fuel always suffices. -/
def dedupFrom (existing : List (List Nat)) (name : List Nat) :
    Nat → Nat → List Nat
  | 0, k => name ++ [45] ++ natToDecimal k
  | fuel + 1, k =>
    let newName := name ++ [45] ++ natToDecimal k
    if newName ∈ existing then dedupFrom existing name fuel (k + 1) else newName

/-- isc_import.py lines 175-182: de-duplicate a channel name against the
names collected so far. -/
def dedupName (existing : List (List Nat)) (name : List Nat) : List Nat :=
  if name ∈ existing then dedupFrom existing name (existing.length + 1) 1
  else name

/-- The 32 channel-name reads with de-duplication (lines 172-182). -/
def readAcqNames : Nat → List (List Nat) → List Nat →
    Option (List (List Nat)) × List Nat
  | 0, acc, s => (some acc, s)
  | n + 1, acc, s =>
    match readZahnerStringFromFile s with
    | (none, rest) => (none, rest)
    | (some nm, s1) => readAcqNames n (acc ++ [dedupName acc nm]) s1

/-- A fixed number of plain Zahner-string reads (the 32 channel units,
and the 12 leading metadata strings of both record types). -/
def readStringsN : Nat → List Nat → Option (List (List Nat)) × List Nat
  | 0, s => (some [], s)
  | n + 1, s =>
    match readZahnerStringFromFile s with
    | (none, rest) => (none, rest)
    | (some u, s1) =>
      match readStringsN n s1 with
      | (none, rest) => (none, rest)
      | (some us, s2) => (some (u :: us), s2)

/-- The 32 discarded 11-value calibration blocks (lines 186-188). -/
def skipCalib : Nat → List Nat → Option Unit × List Nat
  | 0, s => (some (), s)
  | n + 1, s =>
    match readF8ArrayFromFile 11 s with
    | (none, rest) => (none, rest)
    | (some _, s1) => skipCalib n s1

/-- The per-channel data loop (lines 200-209): index into the 32 names
(`IndexError` past the end), read `rows - drop` samples, read and discard
`drop` samples, and then — when rows must be added — fail on the first
iteration of the padding loop: `np.ndarray` has no `append`, so the
intended repeat-last-value padding raises `AttributeError`. -/
def readAcqChannelsFrom (names : List (List Nat)) (rowsMinusDrop dropCount : Int)
    (addPositive : Bool) : Nat → Nat → List Nat →
    Option (List (List Nat × List Nat)) × List Nat
  | _, 0, s => (some [], s)
  | idx, count + 1, s =>
    match names[idx]? with
    | none => (none, s)
    | some nm =>
      match readF8ArrayFromFile rowsMinusDrop s with
      | (none, rest) => (none, rest)
      | (some dataVals, s1) =>
        match readF8ArrayFromFile dropCount s1 with
        | (none, rest) => (none, rest)
        | (some _, s2) =>
          if addPositive then (none, s2)
          else
            match readAcqChannelsFrom names rowsMinusDrop dropCount addPositive
                (idx + 1) count s2 with
            | (none, rest) => (none, rest)
            | (some restChans, s3) => (some ((nm, dataVals) :: restChans), s3)

/-- isc_import.py lines 156-218: the optional ACQ block. Only attempted
when more than 400 bytes remain; any exception degrades to
`acqDecoderSuccess = False` with empty names / units / data (lines
210-218), keeping the already-assigned channel numbers. Row-count
mismatch against the primary sample count `M`: excess rows are dropped
from the **tail** of each channel read; missing rows would be padded by
repeating the last value, but that loop calls `append` on a numpy array
and always raises, degrading the whole ACQ block. -/
def iscAcqDecode (numberOfElements : Int) (s : List Nat) : IscAcq × List Nat :=
  if s.length > 400 then
    match readI2ArrayFromFile 32 s with
    | (none, rest) => (⟨some false, none, [], [], []⟩, rest)
    | (some nums, s1) =>
      match readAcqNames 32 [] s1 with
      | (none, rest) => (⟨some false, some nums, [], [], []⟩, rest)
      | (some names, s2) =>
        match readStringsN 32 s2 with
        | (none, rest) => (⟨some false, some nums, [], [], []⟩, rest)
        | (some units, s3) =>
          match skipCalib 32 s3 with
          | (none, rest) => (⟨some false, some nums, [], [], []⟩, rest)
          | (some _, s4) =>
            match readI6FromFile s4 with
            | (none, rest) => (⟨some false, some nums, [], [], []⟩, rest)
            | (some rowsRead, s5) =>
              match readI6FromFile s5 with
              | (none, rest) => (⟨some false, some nums, [], [], []⟩, rest)
              | (some chansRead, s6) =>
                let numberOfAcqRows := rowsRead + 1
                let numberOfAcqChannels := chansRead + 1
                let rowsToAdd := numberOfElements - numberOfAcqRows
                let rowsToDrop := if rowsToAdd < 0 then -rowsToAdd else 0
                let rowsToAdd2 := if rowsToAdd < 0 then 0 else rowsToAdd
                match readAcqChannelsFrom names (numberOfAcqRows - rowsToDrop)
                    rowsToDrop (0 < rowsToAdd2) 0 numberOfAcqChannels.toNat s6 with
                | (none, rest) => (⟨some false, some nums, [], [], []⟩, rest)
                | (some chans, s7) =>
                  (⟨some true, some nums, names, units, chans⟩, s7)
  else (⟨none, none, [], [], []⟩, s)

/-- A decoded `IscImport` (CV) object. `scalars` holds the 17 leading f8
patterns `Pstart, Tstart, Pupper, Plower, Tend, Pend, Srate, Periods,
PpPer, Imi, Ima, Odrop, Sstart, Send, AZeit, ZpMp, delay`; `strings`
holds `Date, System, Temperature, Time, Slew_Rate, Comment_1..5,
ElecArea, POPF`. The derived float arrays `voltage` (from
`intVoltageRead * factor/8000 + offset`) and `time` are float arithmetic
on these fields and are not duplicated in the model. -/
structure IscRec where
  scalars : List Nat
  numberOfElements : Int
  intVoltageRead : List Int
  current : List Nat
  strings : List (List Nat)
  measurementStartDateTime : ZDateTime
  measurementEndDateTime : ZDateTime
  offsetFactor : ℚ × ℚ
  acq : IscAcq
deriving DecidableEq

/-- The 17 (resp. 10) leading f8 scalar reads. -/
def readF8Scalars : Nat → List Nat → Option (List Nat) × List Nat
  | 0, s => (some [], s)
  | n + 1, s =>
    match readF8FromFile s with
    | (none, rest) => (none, rest)
    | (some v, s1) =>
      match readF8Scalars n s1 with
      | (none, rest) => (none, rest)
      | (some vs, s2) => (some (v :: vs), s2)

/-- `IscImport.__init__` (lines 75-219): the 17 scalars, sample count
(i6 + 1), integer-coded voltage array, current array, 12 strings, the
**uncaught** time split / strptime step, the POPF parse (whose `float()`
failures are also uncaught), and the flagged optional ACQ block. -/
def iscDecode (buf : List Nat) : Option IscRec :=
  match readF8Scalars 17 buf with
  | (none, _) => none
  | (some scalars, s1) =>
  match readI6FromFile s1 with
  | (none, _) => none
  | (some nRead, s2) =>
  let numberOfElements : Int := nRead + 1
  match readI2ArrayFromFile numberOfElements s2 with
  | (none, _) => none
  | (some intVoltageRead, s3) =>
  match readF8ArrayFromFile numberOfElements s3 with
  | (none, _) => none
  | (some current, s4) =>
  match readStringsN 12 s4 with
  | (none, _) => none
  | (some strs, s5) =>
  match iscTimestamps (strs.getD 0 []) (strs.getD 3 []) with
  | none => none
  | some (st, en) =>
  match iscPopfOffsetFactor (strs.getD 11 []) with
  | none => none
  | some offsetFactor =>
  let (acq, _s6) := iscAcqDecode numberOfElements s5
  some
    { scalars := scalars
      numberOfElements := numberOfElements
      intVoltageRead := intVoltageRead
      current := current
      strings := strs
      measurementStartDateTime := st
      measurementEndDateTime := en
      offsetFactor := offsetFactor
      acq := acq }

/-- A decoded `IssImport` (polarization) object. `scalars` holds
`EdgePotential0..3, Resolution, variable_a, variable_b,
RelativeTolerance, AbsoluteTolerance, OhmicDrop`; `strings` is laid out
as for `IscRec`. The timestamps are `Option` because a `strptime` failure
degrades them to `None`. -/
structure IssRec where
  scalars : List Nat
  numberOfElements : Int
  intVoltageRead : List Int
  current : List Nat
  time : List Nat
  strings : List (List Nat)
  measurementStartDateTime : Option ZDateTime
  measurementEndDateTime : Option ZDateTime
  offsetFactor : ℚ × ℚ
deriving DecidableEq

/-- `IssImport.__init__` (lines 44-123): 10 scalars, sample count,
integer-coded voltage, current and time arrays, 12 strings, the split
(outside the `try`, so a non-two-part time string aborts), the guarded
strptime pair, and the POPF parse. -/
def issDecode (buf : List Nat) : Option IssRec :=
  match readF8Scalars 10 buf with
  | (none, _) => none
  | (some scalars, s1) =>
  match readI6FromFile s1 with
  | (none, _) => none
  | (some nRead, s2) =>
  let numberOfElements : Int := nRead + 1
  match readI2ArrayFromFile numberOfElements s2 with
  | (none, _) => none
  | (some intVoltageRead, s3) =>
  match readF8ArrayFromFile numberOfElements s3 with
  | (none, _) => none
  | (some current, s4) =>
  match readF8ArrayFromFile numberOfElements s4 with
  | (none, _) => none
  | (some time, s5) =>
  match readStringsN 12 s5 with
  | (none, _) => none
  | (some strs, _s6) =>
  match issTimestamps (strs.getD 0 []) (strs.getD 3 []) with
  | none => none
  | some (st, en) =>
  match issPopfOffsetFactor (strs.getD 11 []) with
  | none => none
  | some offsetFactor =>
  some
    { scalars := scalars
      numberOfElements := numberOfElements
      intVoltageRead := intVoltageRead
      current := current
      time := time
      strings := strs
      measurementStartDateTime := st
      measurementEndDateTime := en
      offsetFactor := offsetFactor }

/-! Supporting lemmas for evaluating the readers on structured streams
(used for the ACQ-block claims, where the streams are thousands of bytes
long and elementwise evaluation is not feasible). -/

theorem length_natToBytesBE (w v : Nat) : (natToBytesBE w v).length = w := by
  induction w generalizing v with
  | zero => rfl
  | succ w ih =>
    show (natToBytesBE w (v / 256) ++ [v % 256]).length = w + 1
    rw [List.length_append, ih]
    rfl

theorem beNat_append_singleton (l : List Nat) (b : Nat) :
    beNat (l ++ [b]) = beNat l * 256 + b := by
  unfold beNat
  rw [List.foldl_append]
  rfl

theorem beNat_natToBytesBE (w v : Nat) (h : v < 2 ^ (8 * w)) :
    beNat (natToBytesBE w v) = v := by
  induction w generalizing v with
  | zero =>
    simp only [Nat.mul_zero, pow_zero] at h
    have : v = 0 := by omega
    subst this
    rfl
  | succ w ih =>
    show beNat (natToBytesBE w (v / 256) ++ [v % 256]) = v
    rw [beNat_append_singleton, ih (v / 256) (by
      have h2 : 2 ^ (8 * (w + 1)) = 2 ^ (8 * w) * 256 := by
        rw [Nat.mul_succ, pow_add]
        norm_num
      rw [h2] at h
      omega)]
    omega

theorem sbeInt_natToBytesBE (w v : Nat) (hw : 1 ≤ w)
    (h : v < 2 ^ (8 * w - 1)) : sbeInt (natToBytesBE w v) = (v : Int) := by
  have hv : v < 2 ^ (8 * w) := lt_of_lt_of_le h (Nat.pow_le_pow_right (by norm_num) (by omega))
  unfold sbeInt
  rw [beNat_natToBytesBE w v hv, length_natToBytesBE, if_pos h]

theorem f8ArrayToBytes_nil : f8ArrayToBytes [] = [] := rfl

theorem f8ArrayToBytes_cons (p : Nat) (data : List Nat) :
    f8ArrayToBytes (p :: data) = natToBytesBE 8 p ++ f8ArrayToBytes data := by
  unfold f8ArrayToBytes
  rfl

theorem length_f8ArrayToBytes (data : List Nat) :
    (f8ArrayToBytes data).length = 8 * data.length := by
  induction data with
  | nil => rfl
  | cons p data ih =>
    rw [f8ArrayToBytes_cons, List.length_append, length_natToBytesBE, ih]
    simp only [List.length_cons]
    omega

theorem f8Chunks_concat (k : Nat) (data : List Nat) (rest : List Nat)
    (hdata : ∀ p ∈ data, p < 2 ^ 64) (hk : k ≤ data.length) :
    f8Chunks k (f8ArrayToBytes data ++ rest) = data.take k ∧
      (f8ArrayToBytes data ++ rest).drop (8 * k)
        = f8ArrayToBytes (data.drop k) ++ rest := by
  induction k generalizing data with
  | zero => exact ⟨rfl, rfl⟩
  | succ k ih =>
    rcases data with _ | ⟨p, data'⟩
    · simp at hk
    · have hp : p < 2 ^ 64 := hdata p (List.mem_cons_self p data')
      have hlen8 : (natToBytesBE 8 p).length = 8 := length_natToBytesBE 8 p
      have hstream : f8ArrayToBytes (p :: data') ++ rest
          = natToBytesBE 8 p ++ (f8ArrayToBytes data' ++ rest) := by
        rw [f8ArrayToBytes_cons, List.append_assoc]
      have htake : (f8ArrayToBytes (p :: data') ++ rest).take 8 = natToBytesBE 8 p := by
        rw [hstream, List.take_left' hlen8]
      have hdrop : (f8ArrayToBytes (p :: data') ++ rest).drop 8
          = f8ArrayToBytes data' ++ rest := by
        rw [hstream, List.drop_left' hlen8]
      have hdata' : ∀ q ∈ data', q < 2 ^ 64 :=
        fun q hq => hdata q (List.mem_cons_of_mem p hq)
      have hk' : k ≤ data'.length := by
        simp only [List.length_cons] at hk
        omega
      obtain ⟨ih1, ih2⟩ := ih data' hdata' hk'
      constructor
      · show beNat ((f8ArrayToBytes (p :: data') ++ rest).take 8)
            :: f8Chunks k ((f8ArrayToBytes (p :: data') ++ rest).drop 8)
            = (p :: data').take (k + 1)
        rw [htake, hdrop, beNat_natToBytesBE 8 p
          (by norm_num at hp ⊢; exact hp), ih1]
        rfl
      · have h8 : 8 * (k + 1) = 8 + 8 * k := by omega
        rw [h8, ← List.drop_drop, hdrop, ih2]
        rfl

theorem readF8ArrayFromFile_concat (k : Nat) (data : List Nat)
    (rest : List Nat) (hdata : ∀ p ∈ data, p < 2 ^ 64)
    (hk : k ≤ data.length) :
    readF8ArrayFromFile (k : Int) (f8ArrayToBytes data ++ rest)
      = (some (data.take k), f8ArrayToBytes (data.drop k) ++ rest) := by
  obtain ⟨h1, h2⟩ := f8Chunks_concat k data rest hdata hk
  unfold readF8ArrayFromFile
  rw [if_neg (by omega)]
  have htn : ((k : Int)).toNat = k := by omega
  rw [htn]
  rw [if_pos (by
    rw [List.length_append, length_f8ArrayToBytes]
    omega)]
  rw [h1, h2]

theorem readZahnerString_two_zeros (rest : List Nat) :
    readZahnerStringFromFile (0 :: 0 :: rest) = (some [], rest) := by
  unfold readZahnerStringFromFile readI2FromFile
  norm_num [sbeInt, beNat]

theorem replicate_two_mul_succ (n : Nat) (rest : List Nat) :
    List.replicate (2 * (n + 1)) (0 : Nat) ++ rest
      = 0 :: 0 :: (List.replicate (2 * n) 0 ++ rest) := by
  rw [show 2 * (n + 1) = 2 + 2 * n by ring, List.replicate_add, List.append_assoc]
  rfl

theorem readStringsN_zeros (n : Nat) :
    ∀ rest, readStringsN n (List.replicate (2 * n) 0 ++ rest)
      = (some (List.replicate n []), rest) := by
  induction n with
  | zero =>
    intro rest
    rw [show 2 * 0 = 0 by ring]
    simp [readStringsN]
  | succ n ih =>
    intro rest
    rw [replicate_two_mul_succ]
    simp only [readStringsN, readZahnerString_two_zeros, ih rest]
    simp [List.replicate_succ]

/-- The effect of 32 empty channel names on the de-duplicating
accumulator. -/
def emptyNameFold : Nat → List (List Nat) → List (List Nat)
  | 0, acc => acc
  | n + 1, acc => emptyNameFold n (acc ++ [dedupName acc []])

theorem readAcqNames_zeros (n : Nat) :
    ∀ acc rest, readAcqNames n acc (List.replicate (2 * n) 0 ++ rest)
      = (some (emptyNameFold n acc), rest) := by
  induction n with
  | zero =>
    intro acc rest
    rw [show 2 * 0 = 0 by ring]
    simp [readAcqNames, emptyNameFold]
  | succ n ih =>
    intro acc rest
    rw [replicate_two_mul_succ]
    simp only [readAcqNames, readZahnerString_two_zeros,
      ih (acc ++ [dedupName acc []]) rest]
    rfl

theorem emptyNameFold_prefix (n : Nat) :
    ∀ acc, ∃ tail, emptyNameFold n acc = acc ++ tail := by
  induction n with
  | zero =>
    intro acc
    exact ⟨[], by simp [emptyNameFold]⟩
  | succ n ih =>
    intro acc
    obtain ⟨tail, htail⟩ := ih (acc ++ [dedupName acc []])
    refine ⟨[dedupName acc []] ++ tail, ?_⟩
    show emptyNameFold n (acc ++ [dedupName acc []]) = _
    rw [htail, List.append_assoc]

theorem emptyNameFold32_head :
    (emptyNameFold 32 [])[0]? = some [] := by
  obtain ⟨tail, htail⟩ := emptyNameFold_prefix 31 [[]]
  have h1 : emptyNameFold 32 [] = emptyNameFold 31 [[]] := by
    show emptyNameFold (31 + 1) [] = _
    rw [emptyNameFold]
    norm_num [dedupName]
  rw [h1, htail]
  simp

theorem f8ArrayToBytes_replicate_zero (n : Nat) :
    f8ArrayToBytes (List.replicate n 0) = List.replicate (8 * n) 0 := by
  induction n with
  | zero => rfl
  | succ n ih =>
    rw [List.replicate_succ, f8ArrayToBytes_cons, ih,
      show 8 * (n + 1) = 8 + 8 * n by ring, List.replicate_add]
    rfl

theorem readF8ArrayFromFile_eleven_zeros (rest : List Nat) :
    readF8ArrayFromFile 11 (List.replicate 88 0 ++ rest)
      = (some (List.replicate 11 0), rest) := by
  have h88 : List.replicate 88 (0 : Nat) = f8ArrayToBytes (List.replicate 11 0) := by
    rw [f8ArrayToBytes_replicate_zero]
  have h11 : (11 : Int) = ((11 : Nat) : Int) := by norm_num
  rw [h88, h11, readF8ArrayFromFile_concat 11 (List.replicate 11 0) rest
    (by
      intro p hp
      rw [List.eq_of_mem_replicate hp]
      norm_num)
    (by simp)]
  simp [f8ArrayToBytes_nil]

theorem skipCalib_zeros (k : Nat) :
    ∀ rest, skipCalib k (List.replicate (88 * k) 0 ++ rest) = (some (), rest) := by
  induction k with
  | zero =>
    intro rest
    rw [show 88 * 0 = 0 by ring]
    simp [skipCalib]
  | succ k ih =>
    intro rest
    have hsplit : List.replicate (88 * (k + 1)) (0 : Nat) ++ rest
        = List.replicate 88 0 ++ (List.replicate (88 * k) 0 ++ rest) := by
      rw [show 88 * (k + 1) = 88 + 88 * k by ring, List.replicate_add,
        List.append_assoc]
    rw [hsplit]
    simp only [skipCalib, readF8ArrayFromFile_eleven_zeros, ih rest]

theorem i2Chunks_zeros (n : Nat) :
    ∀ rest, i2Chunks n (List.replicate (2 * n) 0 ++ rest) = List.replicate n 0 := by
  induction n with
  | zero =>
    intro rest
    rw [show 2 * 0 = 0 by ring]
    rfl
  | succ n ih =>
    intro rest
    rw [replicate_two_mul_succ]
    show sbeInt ((0 :: 0 :: (List.replicate (2 * n) 0 ++ rest)).take 2)
        :: i2Chunks n ((0 :: 0 :: (List.replicate (2 * n) 0 ++ rest)).drop 2)
        = List.replicate (n + 1) 0
    rw [show (0 :: 0 :: (List.replicate (2 * n) 0 ++ rest)).take 2 = [0, 0] from rfl,
      show (0 :: 0 :: (List.replicate (2 * n) 0 ++ rest)).drop 2
        = List.replicate (2 * n) 0 ++ rest from rfl, ih rest]
    rfl

theorem readI2Array32_zeros (rest : List Nat) :
    readI2ArrayFromFile 32 (List.replicate 64 0 ++ rest)
      = (some (List.replicate 32 0), rest) := by
  have h64 : List.replicate 64 (0 : Nat) = List.replicate (2 * 32) 0 := by norm_num
  unfold readI2ArrayFromFile
  rw [if_neg (by norm_num)]
  rw [show ((32 : Int)).toNat = 32 from rfl]
  rw [if_pos (by
    rw [List.length_append, List.length_replicate]
    omega)]
  rw [h64, i2Chunks_zeros 32 rest]
  rw [show 2 * 32 = 64 from rfl]
  rw [List.drop_left' (by rw [List.length_replicate])]

theorem readF8ArrayFromFile_concat_int (kI : Int) (k : Nat) (hkI : kI = (k : Int))
    (data : List Nat) (rest : List Nat) (hdata : ∀ p ∈ data, p < 2 ^ 64)
    (hk : k ≤ data.length) :
    readF8ArrayFromFile kI (f8ArrayToBytes data ++ rest)
      = (some (data.take k), f8ArrayToBytes (data.drop k) ++ rest) := by
  subst hkI
  exact readF8ArrayFromFile_concat k data rest hdata hk

/-- A synthetic single-channel ACQ block: 32 zero channel numbers, 32
empty names, 32 empty units, the 32 zero calibration blocks, a declared
row count `R` (stored as `R - 1`), a declared channel count 1 (stored as
0), and the channel's `R` f8 samples. -/
def mkAcqStream (R : Nat) (dataBytes : List Nat) : List Nat :=
  List.replicate 64 0 ++ (List.replicate 64 0 ++ (List.replicate 64 0
    ++ (List.replicate 2816 0 ++ (natToBytesBE 6 (R - 1) ++ (natToBytesBE 6 0
    ++ dataBytes)))))

theorem iscAcqDecode_stream_spec (M R : Nat) (data : List Nat)
    (hlen : data.length = R) (hR : 1 ≤ R) (hR48 : R ≤ 2 ^ 40)
    (hdata : ∀ p ∈ data, p < 2 ^ 64) :
    (M ≤ R →
      iscAcqDecode (M : Int) (mkAcqStream R (f8ArrayToBytes data))
        = (⟨some true, some (List.replicate 32 0), emptyNameFold 32 [],
            List.replicate 32 [], [([], data.take M)]⟩, [])) ∧
    (R < M →
      iscAcqDecode (M : Int) (mkAcqStream R (f8ArrayToBytes data))
        = (⟨some false, some (List.replicate 32 0), [], [], []⟩, [])) := by
  have hSlen : (mkAcqStream R (f8ArrayToBytes data)).length > 400 := by
    unfold mkAcqStream
    simp only [List.length_append, List.length_replicate, length_natToBytesBE,
      length_f8ArrayToBytes]
    omega
  have h1 : readI2ArrayFromFile 32 (mkAcqStream R (f8ArrayToBytes data))
      = (some (List.replicate 32 0),
        List.replicate 64 0 ++ (List.replicate 64 0 ++ (List.replicate 2816 0
          ++ (natToBytesBE 6 (R - 1) ++ (natToBytesBE 6 0 ++ f8ArrayToBytes data))))) := by
    unfold mkAcqStream
    exact readI2Array32_zeros _
  have h2 : readAcqNames 32 []
      (List.replicate 64 0 ++ (List.replicate 64 0 ++ (List.replicate 2816 0
        ++ (natToBytesBE 6 (R - 1) ++ (natToBytesBE 6 0 ++ f8ArrayToBytes data)))))
      = (some (emptyNameFold 32 []),
        List.replicate 64 0 ++ (List.replicate 2816 0
          ++ (natToBytesBE 6 (R - 1) ++ (natToBytesBE 6 0 ++ f8ArrayToBytes data)))) := by
    rw [show (64 : Nat) = 2 * 32 from rfl]
    exact readAcqNames_zeros 32 [] _
  have h3 : readStringsN 32
      (List.replicate 64 0 ++ (List.replicate 2816 0
        ++ (natToBytesBE 6 (R - 1) ++ (natToBytesBE 6 0 ++ f8ArrayToBytes data))))
      = (some (List.replicate 32 []),
        List.replicate 2816 0 ++ (natToBytesBE 6 (R - 1)
          ++ (natToBytesBE 6 0 ++ f8ArrayToBytes data))) := by
    rw [show (64 : Nat) = 2 * 32 from rfl]
    exact readStringsN_zeros 32 _
  have h4 : skipCalib 32
      (List.replicate 2816 0 ++ (natToBytesBE 6 (R - 1)
        ++ (natToBytesBE 6 0 ++ f8ArrayToBytes data)))
      = (some (),
        natToBytesBE 6 (R - 1) ++ (natToBytesBE 6 0 ++ f8ArrayToBytes data)) := by
    rw [show (2816 : Nat) = 88 * 32 from rfl]
    exact skipCalib_zeros 32 _
  have hlen6 : (natToBytesBE 6 (R - 1)).length = 6 := length_natToBytesBE 6 _
  have hlen6b : (natToBytesBE 6 0).length = 6 := length_natToBytesBE 6 0
  have h5 : readI6FromFile
      (natToBytesBE 6 (R - 1) ++ (natToBytesBE 6 0 ++ f8ArrayToBytes data))
      = (some ((R - 1 : Nat) : Int), natToBytesBE 6 0 ++ f8ArrayToBytes data) := by
    unfold readI6FromFile
    rw [List.take_left' hlen6, List.drop_left' hlen6,
      sbeInt_natToBytesBE 6 (R - 1) (by norm_num)
        (by
          have h240 : (2 : Nat) ^ 40 ≤ 2 ^ (8 * 6 - 1) :=
            Nat.pow_le_pow_right (by norm_num) (by norm_num)
          omega)]
  have h6 : readI6FromFile (natToBytesBE 6 0 ++ f8ArrayToBytes data)
      = (some 0, f8ArrayToBytes data) := by
    unfold readI6FromFile
    rw [List.take_left' hlen6b, List.drop_left' hlen6b,
      sbeInt_natToBytesBE 6 0 (by norm_num) (by norm_num)]
    norm_num
  have hnames0 : (emptyNameFold 32 [])[0]? = some [] := emptyNameFold32_head
  constructor
  · intro hMR
    have hread1 : readF8ArrayFromFile (M : Int) (f8ArrayToBytes data)
        = (some (data.take M), f8ArrayToBytes (data.drop M)) := by
      have h := readF8ArrayFromFile_concat M data [] hdata (by omega)
      simpa using h
    have hread2 : readF8ArrayFromFile ((R - M : Nat) : Int) (f8ArrayToBytes (data.drop M))
        = (some ((data.drop M).take (R - M)), f8ArrayToBytes ((data.drop M).drop (R - M))) := by
      have h := readF8ArrayFromFile_concat (R - M) (data.drop M) []
        (fun p hp => hdata p (List.mem_of_mem_drop hp))
        (by rw [List.length_drop]; omega)
      simpa using h
    have hdrop2 : (data.drop M).drop (R - M) = [] := by
      rw [List.drop_drop]
      apply List.drop_eq_nil_of_le
      omega
    have hchan : readAcqChannelsFrom (emptyNameFold 32 []) (M : Int)
        ((R - M : Nat) : Int) false 0 1 (f8ArrayToBytes data)
        = (some [([], data.take M)], []) := by
      simp only [readAcqChannelsFrom, hnames0, hread1, hread2, hdrop2,
        f8ArrayToBytes_nil, Bool.false_eq_true, if_false]
    unfold iscAcqDecode
    rw [if_pos hSlen]
    simp only [h1, h2, h3, h4, h5, h6]
    rw [show ((R - 1 : Nat) : Int) + 1 = (R : Int) by omega]
    rw [show (if (M : Int) - (R : Int) < 0 then -((M : Int) - (R : Int)) else 0)
      = ((R - M : Nat) : Int) by split_ifs <;> omega]
    rw [show (R : Int) - ((R - M : Nat) : Int) = (M : Int) by omega]
    rw [show (decide (0 < if (M : Int) - (R : Int) < 0 then 0 else (M : Int) - (R : Int)))
      = false from decide_eq_false (by split_ifs <;> omega)]
    rw [show ((0 : Int) + 1).toNat = 1 from rfl]
    rw [hchan]
  · intro hMR
    have hdropR : data.drop R = [] := by
      apply List.drop_eq_nil_of_le
      omega
    have hreadR : readF8ArrayFromFile ((R : Nat) : Int) (f8ArrayToBytes data)
        = (some data, []) := by
      have h := readF8ArrayFromFile_concat R data [] hdata (by omega)
      rw [List.append_nil] at h
      rw [h, hdropR, f8ArrayToBytes_nil]
      rw [List.take_of_length_le (by omega)]
      simp
    have hread0 : readF8ArrayFromFile (0 : Int) ([] : List Nat) = (some [], []) := rfl
    have hchan : readAcqChannelsFrom (emptyNameFold 32 []) (R : Int)
        (0 : Int) true 0 1 (f8ArrayToBytes data)
        = (none, []) := by
      simp only [readAcqChannelsFrom, hnames0, hreadR, hread0, if_true]
    unfold iscAcqDecode
    rw [if_pos hSlen]
    simp only [h1, h2, h3, h4, h5, h6]
    rw [show ((R - 1 : Nat) : Int) + 1 = (R : Int) by omega]
    rw [show (if (M : Int) - (R : Int) < 0 then -((M : Int) - (R : Int)) else 0)
      = (0 : Int) by split_ifs <;> omega]
    rw [show (R : Int) - (0 : Int) = ((R : Nat) : Int) by omega]
    rw [show (decide (0 < if (M : Int) - (R : Int) < 0 then 0 else (M : Int) - (R : Int)))
      = true from decide_eq_true (by split_ifs <;> omega)]
    rw [show ((0 : Int) + 1).toNat = 1 from rfl]
    rw [hchan]

/-- Claim C7 as amended: for a single-channel ACQ block declaring row
count `R` against primary sample count `M` — when `M ≤ R` the record
decodes with the channel holding exactly its **first** `M` rows (the
trailing excess is dropped; leading rows are kept); when `R < M` the
intended padding (repeat the last decoded value) calls `append` on a
numpy array and raises, so the ACQ block degrades to an empty channel
table with `acqDecoderSuccess = False`, while the record itself still
decodes. -/
theorem claim_C7_amended (M R : Nat) (data : List Nat)
    (hlen : data.length = R) (hR : 1 ≤ R) (hR48 : R ≤ 2 ^ 40)
    (hdata : ∀ p ∈ data, p < 2 ^ 64) :
    (M ≤ R →
      iscAcqDecode (M : Int) (mkAcqStream R (f8ArrayToBytes data))
        = (⟨some true, some (List.replicate 32 0), emptyNameFold 32 [],
            List.replicate 32 [], [([], data.take M)]⟩, [])) ∧
    (R < M →
      iscAcqDecode (M : Int) (mkAcqStream R (f8ArrayToBytes data))
        = (⟨some false, some (List.replicate 32 0), [], [], []⟩, [])) :=
  iscAcqDecode_stream_spec M R data hlen hR hR48 hdata

/-- Witness for the amended C7: declared rows 3, primary count 2, channel
data `[1, 2, 3]` — the channel keeps its first two rows. -/
theorem claim_C7_witness :
    iscAcqDecode ((2 : Nat) : Int) (mkAcqStream 3 (f8ArrayToBytes [1, 2, 3]))
      = (⟨some true, some (List.replicate 32 0), emptyNameFold 32 [],
          List.replicate 32 [], [([], List.take 2 [1, 2, 3])]⟩, []) :=
  (claim_C7_amended 2 3 [1, 2, 3] rfl (by decide) (by decide)
    (by decide)).1 (by decide)

/-- Counterexample to claim C7: with declared row count 1 below the
primary sample count 2 the ACQ decode does not succeed at all — the
channel table comes back empty with the failure flag set (the claim says
every reconciled channel array has length exactly `M`); and with declared
row count 3 above `M = 2` the kept rows are the **leading** `[1, 2]`, not
a padded array nor the claim's leading-rows-dropped `[2, 3]`. -/
theorem claim_C7_counterexample :
    ((iscAcqDecode ((2 : Nat) : Int) (mkAcqStream 1 (f8ArrayToBytes [7]))).1.acqDecoderSuccess
        = some false ∧
      (iscAcqDecode ((2 : Nat) : Int) (mkAcqStream 1 (f8ArrayToBytes [7]))).1.acqData = []) ∧
    ((iscAcqDecode ((2 : Nat) : Int) (mkAcqStream 3 (f8ArrayToBytes [1, 2, 3]))).1.acqData
        = [([], [1, 2])] ∧
      [(([] : List Nat), [1, 2])] ≠ [(([] : List Nat), [2, 3])]) := by
  have hA := (iscAcqDecode_stream_spec 2 1 [7] rfl (by decide) (by decide)
    (by decide)).2 (by decide)
  have hB := (iscAcqDecode_stream_spec 2 3 [1, 2, 3] rfl (by decide) (by decide)
    (by decide)).1 (by decide)
  refine ⟨⟨?_, ?_⟩, ?_, by decide⟩
  · rw [hA]
  · rw [hA]
  · rw [hB]
    decide

/-- A complete one-sample .isc (CV) buffer whose `Time` string is `"x"`
(stored case-swapped as `"X"`), which does not split into two parts on
`-`: 17 zero scalars, count 0, one i2 sample, one f8 sample, and the 12
strings with only `Time` nonempty. -/
def iscBufBadTime : List Nat :=
  List.replicate 136 0
  ++ List.replicate 6 0
  ++ List.replicate 2 0
  ++ List.replicate 8 0
  ++ List.replicate 6 0
  ++ [0, 1, 88]
  ++ List.replicate 16 0

/-- A complete one-sample .iss (polarization) buffer whose `Time` string
is `"x-y"` (stored `"X-Y"`): the split succeeds but both `strptime` calls
fail. -/
def issBufBadTime : List Nat :=
  List.replicate 80 0
  ++ List.replicate 6 0
  ++ List.replicate 2 0
  ++ List.replicate 8 0
  ++ List.replicate 8 0
  ++ List.replicate 6 0
  ++ [0, 3, 88, 45, 89]
  ++ List.replicate 16 0

/-- Counterexample to claim C8: a CV buffer whose composite time string
fails to split into two parts on `-` does **not** decode with null
timestamps — the `ValueError` from the unpacking is uncaught in
`IscImport.__init__` and the whole decode fails. -/
theorem claim_C8_counterexample : iscDecode iscBufBadTime = none := by
  set_option maxRecDepth 10000 in decide

theorem issTimestamps_of_split (dateStr timeStr st en : List Nat)
    (hsplit : pySplitOn 45 timeStr = [st, en]) :
    issTimestamps dateStr timeStr =
      match pyStrptimeDdmmyyHMS (dateStr ++ st),
          pyStrptimeDdmmyyHMS (dateStr ++ en) with
      | some v1, some v2 => some (some v1, some v2)
      | _, _ => some (none, none) := by
  unfold issTimestamps
  rw [hsplit]

theorem iscTimestamps_of_split (dateStr timeStr st en : List Nat)
    (hsplit : pySplitOn 45 timeStr = [st, en]) :
    iscTimestamps dateStr timeStr =
      match pyStrptimeDdmmyyHMS (dateStr ++ st),
          pyStrptimeDdmmyyHMS (dateStr ++ en) with
      | some v1, some v2 => some (v1, v2)
      | _, _ => none := by
  unfold iscTimestamps
  rw [hsplit]

/-- Claim C8 as amended: after a successful two-part split, a `strptime`
failure sets both timestamps to `None` in the polarization decoder
(`try`/`except`) but aborts the CV decoder (no `try`); a time string that
does not split into exactly two parts aborts both decoders; and a
polarization record with an unparseable two-part time string still
decodes, with both timestamps `None`. -/
theorem claim_C8_amended (dateStr timeStr : List Nat) :
    (∀ st en, pySplitOn 45 timeStr = [st, en] →
      (pyStrptimeDdmmyyHMS (dateStr ++ st) = none ∨
        pyStrptimeDdmmyyHMS (dateStr ++ en) = none) →
      issTimestamps dateStr timeStr = some (none, none) ∧
        iscTimestamps dateStr timeStr = none) ∧
    ((pySplitOn 45 timeStr).length ≠ 2 →
      issTimestamps dateStr timeStr = none ∧
        iscTimestamps dateStr timeStr = none) ∧
    (issDecode issBufBadTime).map
        (fun r => (r.measurementStartDateTime, r.measurementEndDateTime))
      = some (none, none) := by
  refine ⟨?_, ?_, ?_⟩
  · intro st en hsplit hfail
    rw [issTimestamps_of_split dateStr timeStr st en hsplit,
      iscTimestamps_of_split dateStr timeStr st en hsplit]
    cases hp1 : pyStrptimeDdmmyyHMS (dateStr ++ st) with
    | none => exact ⟨rfl, rfl⟩
    | some v1 =>
      cases hp2 : pyStrptimeDdmmyyHMS (dateStr ++ en) with
      | none => exact ⟨rfl, rfl⟩
      | some v2 =>
        rcases hfail with hf | hf
        · rw [hp1] at hf
          exact absurd hf (by simp)
        · rw [hp2] at hf
          exact absurd hf (by simp)
  · intro hlen
    unfold issTimestamps iscTimestamps
    rcases hsp : pySplitOn 45 timeStr with _ | ⟨a, _ | ⟨b, _ | ⟨c, tl⟩⟩⟩
    · exact ⟨rfl, rfl⟩
    · exact ⟨rfl, rfl⟩
    · rw [hsp] at hlen
      simp at hlen
    · exact ⟨rfl, rfl⟩
  · set_option maxRecDepth 10000 in decide

/-- Witness for the amended C8 at the empty date string and the time
string `"x-y"`. -/
theorem claim_C8_witness :
    issTimestamps [] [120, 45, 121] = some (none, none) ∧
      iscTimestamps [] [120, 45, 121] = none :=
  (claim_C8_amended [] [120, 45, 121]).1 [120] [121] (by decide)
    (Or.inl (by decide))

/-! impedance_model_import.py: the circuit-element parameter nodes. A
minimal `xml.etree.ElementTree.Element` is a tag, an attribute dictionary
(an association list here) and a list of child elements; strings are
lists of Unicode code points as elsewhere in this development. -/

inductive IsfxXml where
  | node (tag : List Nat) (attrib : List (List Nat × List Nat))
      (children : List IsfxXml) : IsfxXml

def IsfxXml.tag : IsfxXml → List Nat
  | .node t _ _ => t

def IsfxXml.attrib : IsfxXml → List (List Nat × List Nat)
  | .node _ a _ => a

def IsfxXml.children : IsfxXml → List IsfxXml
  | .node _ _ c => c

/-- `Element.find(tag)`: the first **child element** with the given tag
(not an attribute lookup). -/
def IsfxXml.find (x : IsfxXml) (t : List Nat) : Option IsfxXml :=
  x.children.find? (fun c => c.tag == t)

/-- Truthiness of an optional `Element` in Python: `None` is falsy, and
an `Element` itself is truthy iff it has at least one **child element**
(`Element.__len__` counts children; attributes and text do not count). -/
def elementTruthy : Option IsfxXml → Bool
  | none => false
  | some e => !e.children.isEmpty

/-- Python dictionary lookup `d[k]` as an association-list lookup;
`none` models the `KeyError`. -/
def dictGet {α : Type} (d : List (List Nat × α)) (k : List Nat) : Option α :=
  (d.find? (fun p => p.1 == k)).map (fun p => p.2)

/-- The code points of the attribute / child-element names used by the
parameter accessors. -/
def strName : List Nat := [110, 97, 109, 101]

def strUnit : List Nat := [117, 110, 105, 116]

def strIndex : List Nat := [105, 110, 100, 101, 120]

/-- impedance_model_import.py lines 292-331: the static
`elementParameterIndex` catalog, keyed by parent element tag and then by
the decimal `index` attribute, giving the (name, unit) pair. -/
def elementParameterIndex :
    List (List Nat × List (List Nat × (List Nat × List Nat))) :=
  [([114, 101, 115, 105, 115, 116, 111, 114],
    [([48], ([82], [937]))]),
   ([105, 110, 100, 117, 99, 116, 111, 114],
    [([48], ([76], [72]))]),
   ([99, 97, 112, 97, 99, 105, 116, 111, 114],
    [([48], ([67], [70]))]),
   ([115, 112, 104, 101, 114, 105, 99, 97, 108, 45, 100, 105, 102, 102,
     117, 115, 105, 111, 110],
    [([48], ([87], [937, 115, 94, 40, 45, 189, 41])),
     ([49], ([107], [49, 47, 115]))]),
   ([121, 111, 117, 110, 103, 45, 103, 111, 101, 104, 114, 45, 105, 109,
     112, 101, 100, 97, 110, 99, 101],
    [([48], ([67], [70])),
     ([49], ([112], [])),
     ([50], ([84], [115]))]),
   ([119, 97, 114, 98, 117, 114, 103, 45, 105, 109, 112, 101, 100, 97,
     110, 99, 101],
    [([48], ([87], [937, 115, 94, 40, 45, 189, 41]))]),
   ([110, 101, 114, 110, 115, 116, 45, 100, 105, 102, 102, 117, 115,
     105, 111, 110],
    [([48], ([87], [937, 115, 94, 40, 45, 189, 41])),
     ([49], ([107], [49, 47, 115]))]),
   ([102, 105, 110, 105, 116, 101, 45, 100, 105, 102, 102, 117, 115,
     105, 111, 110],
    [([48], ([87], [937, 115, 94, 40, 45, 189, 41])),
     ([49], ([107], [49, 47, 115]))]),
   ([104, 111, 109, 111, 103, 101, 110, 111, 117, 115, 45, 114, 101, 97,
     99, 116, 105, 111, 110, 45, 105, 109, 112, 101, 100, 97, 110, 99,
     101],
    [([48], ([87], [937, 115, 94, 40, 45, 189, 41])),
     ([49], ([107], [49, 47, 115]))]),
   ([99, 111, 110, 115, 116, 97, 110, 116, 45, 112, 104, 97, 115, 101,
     45, 101, 108, 101, 109, 101, 110, 116],
    [([48], ([67, 95, 101, 113], [70])),
     ([49], ([945], [])),
     ([50], ([102, 95, 110, 111, 114, 109], [72, 122]))])]

/-- A parameter node together with its parent element tag
(`IsfxModelElementParameter.__init__`, default parent `None`). -/
structure IsfxModelElementParameter where
  xml : IsfxXml
  xmlParentTag : Option (List Nat)

/-- impedance_model_import.py lines 338-348: `getName`. The dispatch
condition is `if self.xml.find("name"):` — a **truthy name child
element** — not the presence of a `name` attribute; the fallback is the
catalog keyed by parent tag and `index` attribute, and every missing key
raises `KeyError` (`none` here). -/
def IsfxModelElementParameter.getName (p : IsfxModelElementParameter) :
    Option (List Nat) :=
  if elementTruthy (p.xml.find strName) = true then dictGet p.xml.attrib strName
  else
    match p.xmlParentTag with
    | none => none
    | some tg =>
      match dictGet elementParameterIndex tg, dictGet p.xml.attrib strIndex with
      | some entries, some idx => (dictGet entries idx).map (fun nu => nu.1)
      | _, _ => none

/-- impedance_model_import.py lines 350-360: `getUnit`, symmetric to
`getName` with the `unit` child / attribute and the unit column of the
catalog. -/
def IsfxModelElementParameter.getUnit (p : IsfxModelElementParameter) :
    Option (List Nat) :=
  if elementTruthy (p.xml.find strUnit) = true then dictGet p.xml.attrib strUnit
  else
    match p.xmlParentTag with
    | none => none
    | some tg =>
      match dictGet elementParameterIndex tg, dictGet p.xml.attrib strIndex with
      | some entries, some idx => (dictGet entries idx).map (fun nu => nu.2)
      | _, _ => none

/-- A childless parameter node carrying explicit `name="X"`, `unit="V"`
and `index="0"` attributes, with parent tag `resistor`. -/
def c9Xml : IsfxXml :=
  .node [112, 97, 114, 97, 109, 101, 116, 101, 114]
    [(strName, [88]), (strUnit, [86]), (strIndex, [48])] []

def c9TagResistor : List Nat := [114, 101, 115, 105, 115, 116, 111, 114]

/-- Counterexample to claim C9: a parameter node whose `name` and `unit`
**attributes** are present (`name="X"`, `unit="V"`) but which has no
child elements. The claim says the accessors return the node's own
attributes; the code instead tests `self.xml.find("name")` — a truthy
`name` **child element** — so it falls through to the catalog and
returns `R` / `Ω`. -/
theorem claim_C9_counterexample :
    (IsfxModelElementParameter.getName ⟨c9Xml, some c9TagResistor⟩ = some [82] ∧
      IsfxModelElementParameter.getName ⟨c9Xml, some c9TagResistor⟩ ≠ some [88]) ∧
    (IsfxModelElementParameter.getUnit ⟨c9Xml, some c9TagResistor⟩ = some [937] ∧
      IsfxModelElementParameter.getUnit ⟨c9Xml, some c9TagResistor⟩ ≠ some [86]) := by
  decide

/-- Claim C9 as amended: the attribute route is taken exactly when the
node has a truthy `name` (resp. `unit`) **child element** — attribute
presence is irrelevant to the dispatch — and then the attribute itself is
returned (`KeyError`, i.e. `none`, if absent); otherwise the static
catalog keyed by parent tag and `index` attribute is consulted, and any
missing key — unknown parent tag, missing `index` attribute, or unknown
index — raises a plain `KeyError` (`none`), with no dedicated
`UnknownParameterType` error and no silently returned empty string. -/
theorem claim_C9_amended (x : IsfxXml) (parent : Option (List Nat)) :
    (elementTruthy (x.find strName) = true →
      IsfxModelElementParameter.getName ⟨x, parent⟩ = dictGet x.attrib strName) ∧
    (elementTruthy (x.find strName) = false →
      IsfxModelElementParameter.getName ⟨x, parent⟩ =
        match parent with
        | none => none
        | some tg =>
          match dictGet elementParameterIndex tg, dictGet x.attrib strIndex with
          | some entries, some idx => (dictGet entries idx).map (fun nu => nu.1)
          | _, _ => none) ∧
    (elementTruthy (x.find strUnit) = true →
      IsfxModelElementParameter.getUnit ⟨x, parent⟩ = dictGet x.attrib strUnit) ∧
    (elementTruthy (x.find strUnit) = false →
      IsfxModelElementParameter.getUnit ⟨x, parent⟩ =
        match parent with
        | none => none
        | some tg =>
          match dictGet elementParameterIndex tg, dictGet x.attrib strIndex with
          | some entries, some idx => (dictGet entries idx).map (fun nu => nu.2)
          | _, _ => none) := by
  refine ⟨?_, ?_, ?_, ?_⟩
  · intro h
    unfold IsfxModelElementParameter.getName
    rw [if_pos h]
  · intro h
    unfold IsfxModelElementParameter.getName
    rw [if_neg (by rw [h]; simp)]
  · intro h
    unfold IsfxModelElementParameter.getUnit
    rw [if_pos h]
  · intro h
    unfold IsfxModelElementParameter.getUnit
    rw [if_neg (by rw [h]; simp)]

/-- Witness for the amended C9 at the concrete childless node: the
fallback route fires and yields the catalog entry for `resistor`
index 0. -/
theorem claim_C9_witness :
    IsfxModelElementParameter.getName ⟨c9Xml, some c9TagResistor⟩ = some [82] :=
  ((claim_C9_amended c9Xml (some c9TagResistor)).2.1 (by decide)).trans (by decide)

end ZahnerAnalysis
